import Mathlib

/-!
# Schema migration engine (`src/databasemanager.cpp`)

A shallow embedding of `DatabaseManager` and a verification of its version
bookkeeping, trigger extraction and transactional application of migrations.

* `std::string` is a list of characters (`Str`).
* The database connection is an external collaborator. Every call the engine
  makes on it is recorded as an `Event` (the call and the boolean it returned);
  the collaborator itself is a `Database`: a function from the history of
  calls so far and the next call to its answer. Any deterministic
  database is such a function of its history.
* `int32_t` arithmetic is `Int` wrapped to 32 bits (`int32`), `std::size_t`
  arithmetic is `Nat` modulo `2 ^ 64`.
-/

namespace DatabaseManager

/-! ## Strings -/

/-- A `std::string`. -/
abbrev Str := List Char

/-- Whitespace in the classic locale (`std::isspace`: space and the codes 9 to 13), as used
by `boost::algorithm::trim`. -/
def isSpace (c : Char) : Bool :=
  c.toNat == 32 || (decide (9 ≤ c.toNat) && decide (c.toNat ≤ 13))

/-- A decimal digit: `'0' <= c && c <= '9'`. -/
def isDigit (c : Char) : Bool :=
  decide (48 ≤ c.toNat) && decide (c.toNat ≤ 57)

/-- The function `boost::algorithm::trim`: drop leading and trailing whitespace. -/
def trim (s : Str) : Str :=
  ((s.dropWhile isSpace).reverse.dropWhile isSpace).reverse

/-- The function `std::string::find(pat)`: index of the first occurrence, `none` for `npos`. -/
def find (pat : Str) : Str → Option Nat
  | [] => if pat.isEmpty then some 0 else none
  | c :: cs =>
    if pat.isPrefixOf (c :: cs) then some 0
    else (find pat cs).map (· + 1)

/-- Modulus of `std::size_t` arithmetic. -/
def sizeT : Nat := 2 ^ 64

/-- The function `std::string::substr(pos, count)` for `pos ≤ size`, which holds at every call in the source. -/
def substr (s : Str) (pos count : Nat) : Str := (s.drop pos).take count

/-- The function `std::string::replace(pos, count, "")`: erase `count` characters from `pos`. -/
def erase (s : Str) (pos count : Nat) : Str := s.take pos ++ (s.drop pos).drop count

/-- Worker of `split`: `item` holds the current piece, reversed. -/
def splitAux (delim : Char) : Str → Str → List Str
  | [], item => if item.isEmpty then [] else [item.reverse]
  | c :: cs, item =>
    if c == delim then item.reverse :: splitAux delim cs []
    else splitAux delim cs (c :: item)

/-- Modelled from the spec: the helper `split(text, delim)` is declared outside
`databasemanager.cpp`. It splits the text on the delimiter character into the
ordered sequence of pieces between delimiters; the text after the last
delimiter is a piece only when it is not empty. -/
def split (s : Str) (delim : Char) : List Str := splitAux delim s []

/-- Modelled from the spec: the helper `isNumbers(text)` is declared outside
`databasemanager.cpp`. It tells whether the token is a valid unsigned integer:
every character is a decimal digit. -/
def isNumbers (text : Str) : Bool := text.all isDigit

/-- Two's-complement wrap of a value to `int32_t`. -/
def int32 (z : Int) : Int := (z + 2147483648) % 4294967296 - 2147483648

/-- Digit loop of `atoi`. -/
def atoiDigits : Str → Int → Int
  | [], acc => acc
  | c :: cs, acc =>
    if isDigit c then atoiDigits cs (acc * 10 + ((c.toNat : Int) - 48)) else acc

/-- The C library function `atoi`: skip whitespace, read an optional sign, read digits. -/
def atoi (s : Str) : Int :=
  match s.dropWhile isSpace with
  | [] => 0
  | c :: cs =>
    if c = '-' then int32 (- atoiDigits cs 0)
    else if c = '+' then int32 (atoiDigits cs 0)
    else int32 (atoiDigits (c :: cs) 0)

/-- The comparison `operator<` on `std::string`: lexicographic on character codes. -/
def strLess : Str → Str → Bool
  | [], [] => false
  | [], _ :: _ => true
  | _ :: _, [] => false
  | a :: as, b :: bs =>
    if a.toNat < b.toNat then true
    else if b.toNat < a.toNat then false
    else strLess as bs

/-- Insert a string into a sorted list. -/
def insertSorted (s : Str) : List Str → List Str
  | [] => [s]
  | t :: ts => if strLess t s then t :: insertSorted s ts else s :: t :: ts

/-- The call `std::sort(files.begin(), files.end())`. -/
def sortFiles (files : List Str) : List Str := files.foldr insertSorted []

/-! ## The database collaborator -/

/-- The queries the engine builds. `statement` is text taken from a migration file. -/
inductive Query
  | selectTable (tableName : Str)
  | selectConfig (config : Str)
  | insertConfig (config : Str) (value : Int)
  | updateConfig (config : Str) (value : Int)
  | createServerConfig
  | statement (text : Str)
  deriving DecidableEq

/-- The calls the engine makes on `Database`. -/
inductive Call
  | storeQuery (q : Query)
  | executeQuery (q : Query)
  | beginTransaction
  | commit
  | rollback
  deriving DecidableEq

/-- One call on the database together with its outcome: for `storeQuery` whether
the result is non-null, for the others the boolean returned. -/
structure Event where
  call : Call
  ok : Bool
  deriving DecidableEq

/-- The database collaborator: its answer to a call given the calls made so far,
and the number a non-null `SELECT value` result holds. -/
structure Database where
  answer : List Event → Call → Bool
  number : List Event → Str → Int

/-- The config key of the logical version. -/
def dbVersionKey : Str := "db_version".toList

/-- The config key of the SQL version. -/
def dbSqlVersionKey : Str := "db_sql_version".toList

/-- The name of the bookkeeping table. -/
def serverConfig : Str := "server_config".toList

/-- The function `DatabaseManager::tableExists`. -/
def tableExists (db : Database) (h : List Event) (tableName : Str) : Bool × List Event :=
  let c := Call.storeQuery (.selectTable tableName)
  let ok := db.answer h c
  (ok, [⟨c, ok⟩])

/-- The function `DatabaseManager::getDatabaseConfig`: `none` when the query has no result. -/
def getDatabaseConfig (db : Database) (h : List Event) (config : Str) :
    Option Int × List Event :=
  let c := Call.storeQuery (.selectConfig config)
  let ok := db.answer h c
  (if ok then some (int32 (db.number h config)) else none, [⟨c, ok⟩])

/-- The function `DatabaseManager::registerDatabaseConfig`: insert the key if absent, else update it.
The outcome of the write is ignored, as in the source. -/
def registerDatabaseConfig (db : Database) (h : List Event) (config : Str) (value : Int) :
    List Event :=
  let r := getDatabaseConfig db h config
  let q := if r.1.isNone then Query.insertConfig config value else Query.updateConfig config value
  let ok := db.answer (h ++ r.2) (.executeQuery q)
  r.2 ++ [⟨.executeQuery q, ok⟩]

/-- The function `DatabaseManager::getDatabaseVersion`. -/
def getDatabaseVersion (db : Database) (h : List Event) : Int × List Event :=
  let t := tableExists db h serverConfig
  if !t.1 then (0, t.2)
  else
    let r := getDatabaseConfig db (h ++ t.2) dbVersionKey
    match r.1 with
    | some version => (version, t.2 ++ r.2)
    | none => (-1, t.2 ++ r.2)

/-- The function `DatabaseManager::getDatabaseSQLVersion`: creates and seeds the table when absent. -/
def getDatabaseSQLVersion (db : Database) (h : List Event) : Int × List Event :=
  let t := tableExists db h serverConfig
  if !t.1 then
    let c1 := Call.executeQuery .createServerConfig
    let e1 : Event := ⟨c1, db.answer (h ++ t.2) c1⟩
    let c2 := Call.executeQuery (.insertConfig dbSqlVersionKey 0)
    let e2 : Event := ⟨c2, db.answer (h ++ t.2 ++ [e1]) c2⟩
    (0, t.2 ++ [e1, e2])
  else
    let r := getDatabaseConfig db (h ++ t.2) dbSqlVersionKey
    match r.1 with
    | some version => (version, t.2 ++ r.2)
    | none => (-1, t.2 ++ r.2)

/-! ## Trigger extraction -/

/-- The start marker of a trigger block. -/
def startMarker : Str := "DELIMITER |".toList

/-- The end marker of a trigger block. -/
def endMarker : Str := "DELIMITER ;".toList

/-- The function `DatabaseManager::gatherMigrationTriggers`: returns the triggers and the new value
of the by-reference `content`. -/
def gatherMigrationTriggers (content : Str) : List Str × Str :=
  match find startMarker content with
  | some delimiterStart =>
    match find endMarker content with
    | some delimiterEnd =>
      let triggerStr := substr content (delimiterStart + 11)
        ((delimiterEnd + sizeT - (delimiterStart + 11)) % sizeT)
      let triggerStr := trim triggerStr
      let triggers := split triggerStr '|'
      (triggers, erase content delimiterStart ((delimiterEnd + 11 + sizeT - delimiterStart) % sizeT))
    | none => ([], content)
  | none => ([], content)

/-! ## File-based SQL migrations -/

/-- The function `DatabaseManager::loadMigrationFiles` over the entries of the directory. -/
def loadMigrationFiles (entries : List Str) : List Str :=
  entries.filter fun s => (if s.length > 4 then s.drop (s.length - 4) else []) == ".sql".toList

/-- The version `applySQLMigrations` gives a file (lines 175-177): the character at
index 1, if `isNumbers` accepts it, read by `atoi`. -/
def fileVersion (name : Str) : Option Int :=
  let file := substr name 1 1
  if isNumbers file then some (atoi file) else none

/-- File access and the helpers of the content pipeline, all declared outside
`databasemanager.cpp`: the bytes of a file, `Database::escapeBlob`, `replaceString` and
`stripUnicode`. -/
structure Tools where
  readFile : Str → Str
  escapeBlob : Str → Str
  replaceString : Str → Str → Str → Str
  stripUnicode : Str → Str

/-- The directory of the migration files. -/
def migrationsDir : Str := "db/migrations/".toList

/-- Lines 179-199 of `applySQLMigrations`: the text of a migration file as read, escaped,
cleaned, stripped of its first and last character and trimmed. The run of the source over
helpers `t` is `applySQLMigrations db (fileContent t) h entries`. -/
def fileContent (t : Tools) (name : Str) : Str :=
  let buffer := t.readFile (migrationsDir ++ name)
  let content := t.escapeBlob buffer
  let content := t.replaceString content "\\n".toList " ".toList
  let content := t.replaceString content "\t".toList []
  let content := t.replaceString content "\\".toList []
  let content := t.stripUnicode content
  let content := substr content 1 ((content.length + sizeT - 2) % sizeT)
  trim content

/-- The two statement loops of `applySQLMigrations` (lines 211-218 and 221-228): run the
trimmed non-empty queries in order, stop at the first that fails. Returns `passed`. -/
def executeAll (db : Database) : List Event → List Str → Bool × List Event
  | _, [] => (true, [])
  | h, q :: qs =>
    let query := trim q
    if query.isEmpty then executeAll db h qs
    else
      let c := Call.executeQuery (.statement (query ++ [';']))
      if db.answer h c then
        let r := executeAll db (h ++ [⟨c, true⟩]) qs
        (r.1, ⟨c, true⟩ :: r.2)
      else (false, [⟨c, false⟩])

/-- The body of the loop of `applySQLMigrations` for one file (lines 175-248). `content`
gives, for a file name, its text as read and normalised at lines 179-199 (`fileContent`).
Returns the new value of `version` and the calls made. -/
def migrateFile (db : Database) (content : Str → Str) (h : List Event) (version : Int)
    (name : Str) : Int × List Event :=
  let file := substr name 1 1
  if isNumbers file then
    let mversion := atoi file
    if mversion > version then
      let g := gatherMigrationTriggers (content name)
      let triggers := g.1
      let queries := split g.2 ';'
      if db.answer h .beginTransaction then
        let eB : List Event := [⟨.beginTransaction, true⟩]
        let r1 := executeAll db (h ++ eB) queries
        let r2 := if r1.1 then executeAll db (h ++ eB ++ r1.2) triggers else (false, [])
        let es := eB ++ r1.2 ++ r2.2
        if r2.1 then
          let w := registerDatabaseConfig db (h ++ es) dbSqlVersionKey mversion
          if db.answer (h ++ es ++ w) .commit then
            (mversion, es ++ w ++ [⟨.commit, true⟩])
          else
            let e : Event := ⟨.commit, false⟩
            (mversion, es ++ w ++ [e, ⟨.rollback, db.answer (h ++ es ++ w ++ [e]) .rollback⟩])
        else
          (version, es ++ [⟨.rollback, db.answer (h ++ es) .rollback⟩])
      else (version, [⟨.beginTransaction, false⟩])
    else (version, [])
  else (version, [])

/-- What the loop did for one file: the value of `version` before and after, and the calls. -/
structure FileRun where
  file : Str
  before : Int
  after : Int
  events : List Event
  deriving DecidableEq

/-- The loop of `applySQLMigrations` over the sorted files (lines 174-249). -/
def migrateLoop (db : Database) (content : Str → Str) :
    List Event → Int → List Str → Int × List FileRun
  | _, version, [] => (version, [])
  | h, version, f :: fs =>
    let r := migrateFile db content h version f
    let rest := migrateLoop db content (h ++ r.2) r.1 fs
    (rest.1, ⟨f, version, r.1, r.2⟩ :: rest.2)

/-- A run of `applySQLMigrations`: the value returned, the version read at the start,
the calls made while reading it, and what was done for each file in order. -/
structure Run where
  result : Int
  start : Int
  reading : List Event
  files : List FileRun

/-- The function `DatabaseManager::applySQLMigrations` over the entries of `db/migrations/`. -/
def applySQLMigrations (db : Database) (content : Str → Str) (h : List Event)
    (entries : List Str) : Run :=
  let v := getDatabaseSQLVersion db h
  if v.1 < 0 then ⟨0, v.1, v.2, []⟩
  else
    let files := sortFiles (loadMigrationFiles entries)
    let r := migrateLoop db content (h ++ v.2) v.1 files
    ⟨r.1, v.1, v.2, r.2⟩

/-- All calls of the per-file records, in order. -/
def fileEvents (runs : List FileRun) : List Event := (runs.map (·.events)).flatten

/-- All calls of a run, in order. -/
def Run.log (r : Run) : List Event := r.reading ++ fileEvents r.files

/-- The values the calls issue as writes of a config key, in order. -/
def configWrites (config : Str) (es : List Event) : List Int :=
  es.filterMap fun e =>
    match e.call with
    | .executeQuery (.insertConfig c v) => if c = config then some v else none
    | .executeQuery (.updateConfig c v) => if c = config then some v else none
    | _ => none

/-- The call reads or writes the given config key. -/
def touchesConfig (config : Str) (c : Call) : Bool :=
  match c with
  | .storeQuery (.selectConfig k) => k == config
  | .executeQuery (.insertConfig k _) => k == config
  | .executeQuery (.updateConfig k _) => k == config
  | _ => false

/-- The file's transaction was committed successfully. -/
def committed (r : FileRun) : Prop := (⟨.commit, true⟩ : Event) ∈ r.events

instance (r : FileRun) : Decidable (committed r) := by
  unfold committed; infer_instance

/-- The version of the last file whose transaction committed successfully, or `v`. -/
def lastCommitted (v : Int) : List FileRun → Int
  | [] => v
  | r :: rs =>
    if committed r then lastCommitted ((fileVersion r.file).getD v) rs
    else lastCommitted v rs

/-! ## Scripted migrations -/

/-- The scripting collaborator as seen by `updateDatabase`, per version of the unit:
whether `luaL_newstate` gives a state, whether `luaL_dofile` of
`data/migrations/<version>.lua` succeeds, whether a script environment can be reserved,
whether the call of `onUpdateDatabase` succeeds, and the boolean it returned. -/
structure LuaHost where
  newstate : Bool
  dofile : Int → Bool
  reserveScriptEnv : Int → Bool
  pcall : Int → Bool
  getBoolean : Int → Bool

/-- Outcome of a bounded number of iterations of the loop of `updateDatabase`:
whether the loop has left through a `break`, the value of `version`, and the calls made
on the database. -/
structure Update where
  stopped : Bool
  version : Int
  events : List Event
  deriving DecidableEq

/-- The `do ... while (true)` loop of `updateDatabase` (lines 129-158), at most `fuel`
iterations. -/
def updateLoop (db : Database) (lua : LuaHost) : Nat → List Event → Int → Update
  | 0, _, version => ⟨false, version, []⟩
  | fuel + 1, h, version =>
    if !lua.dofile version then ⟨true, version, []⟩
    else if !lua.reserveScriptEnv version then ⟨true, version, []⟩
    else if !lua.pcall version then ⟨true, version, []⟩
    else if !lua.getBoolean version then ⟨true, version, []⟩
    else
      let version := int32 (version + 1)
      let es := registerDatabaseConfig db h dbVersionKey version
      let r := updateLoop db lua fuel (h ++ es) version
      ⟨r.stopped, r.version, es ++ r.events⟩

/-- The function `DatabaseManager::updateDatabase`, at most `fuel` iterations of its loop. Without a Lua
state the function returns at once and no version is read (the field is then 0). -/
def updateDatabase (db : Database) (lua : LuaHost) (fuel : Nat) (h : List Event) : Update :=
  if !lua.newstate then ⟨true, 0, []⟩
  else
    let v := getDatabaseVersion db h
    let r := updateLoop db lua fuel (h ++ v.2) v.1
    ⟨r.stopped, r.version, v.2 ++ r.events⟩

/-- Every call is a successful execution of a statement of the file. -/
def okStatements (es : List Event) : Prop :=
  ∀ e ∈ es, ∃ q, e = ⟨.executeQuery (.statement q), true⟩

/-! ## Concrete databases and migration sets -/

/-- The value of a config key as committed, as seen by the connection, and whether a
transaction is open. -/
structure Stored where
  durable : Int
  current : Int
  inTransaction : Bool

/-- Effect of one successful call on the stored value of a config key. -/
def storedStep (config : Str) (s : Stored) (e : Event) : Stored :=
  if !e.ok then s
  else
    match e.call with
    | .executeQuery (.insertConfig c v) =>
      if c = config then ⟨if s.inTransaction then s.durable else v, v, s.inTransaction⟩ else s
    | .executeQuery (.updateConfig c v) =>
      if c = config then ⟨if s.inTransaction then s.durable else v, v, s.inTransaction⟩ else s
    | .beginTransaction => ⟨s.durable, s.current, true⟩
    | .commit => ⟨s.current, s.current, false⟩
    | .rollback => ⟨s.durable, s.durable, false⟩
    | _ => s

/-- The value a config key holds for the connection after the calls of `h`, starting from
`initial`: writes inside a transaction last only if it is committed. -/
def storedValue (initial : Int) (h : List Event) (config : Str) : Int :=
  (h.foldl (storedStep config) ⟨initial, initial, false⟩).current

/-- A database whose bookkeeping table exists and holds `initial` under every key, that
keeps config writes transactionally, and that refuses exactly the calls in `fails`. -/
def simpleDb (initial : Int) (fails : Call → Bool) : Database where
  answer := fun _ c => !fails c
  number := fun h config => storedValue initial h config

/-- A database on which every call succeeds. -/
def healthyDb : Database := simpleDb 0 fun _ => false

/-- A file with three statements. -/
def threeStatements (_ : Str) : Str :=
  "CREATE TABLE a (id INT); INSERT INTO b VALUES (1); CREATE TABLE c (id INT)".toList

/-- A database on which the second statement of `threeStatements` fails. -/
def secondFailsDb : Database :=
  simpleDb 0 fun c => decide (c = .executeQuery (.statement "INSERT INTO b VALUES (1);".toList))

/-- What the loop does for `v1.sql` holding `threeStatements` on `secondFailsDb`. -/
def secondFailsRun : FileRun :=
  ⟨"v1.sql".toList, 0, 0,
    [⟨.beginTransaction, true⟩,
      ⟨.executeQuery (.statement "CREATE TABLE a (id INT);".toList), true⟩,
      ⟨.executeQuery (.statement "INSERT INTO b VALUES (1);".toList), false⟩,
      ⟨.rollback, true⟩]⟩

/-- Every file holds one statement. -/
def oneStatement (_ : Str) : Str := "CREATE TABLE a (id INT);".toList

/-- File `v1.sql` holds the statement that `secondFailsDb` refuses, every other file one
that succeeds. -/
def firstFileFails (name : Str) : Str :=
  if name = "v1.sql".toList then "INSERT INTO b VALUES (1);".toList
  else "CREATE TABLE a (id INT);".toList

/-- What the loop does for `v1.sql` of `firstFileFails` on `secondFailsDb`. -/
def firstFileFailsRun : FileRun :=
  ⟨"v1.sql".toList, 0, 0,
    [⟨.beginTransaction, true⟩,
      ⟨.executeQuery (.statement "INSERT INTO b VALUES (1);".toList), false⟩,
      ⟨.rollback, true⟩]⟩

/-- What the loop then does for `v2.sql` of `firstFileFails` on `secondFailsDb`. -/
def firstFileFailsNext : FileRun :=
  ⟨"v2.sql".toList, 0, 2,
    [⟨.beginTransaction, true⟩,
      ⟨.executeQuery (.statement "CREATE TABLE a (id INT);".toList), true⟩,
      ⟨.storeQuery (.selectConfig dbSqlVersionKey), true⟩,
      ⟨.executeQuery (.updateConfig dbSqlVersionKey 2), true⟩,
      ⟨.commit, true⟩]⟩

/-- A fresh database: the bookkeeping table exists only once it has been created; every
other call succeeds. -/
def freshDb : Database where
  answer := fun h c =>
    if c = .storeQuery (.selectTable serverConfig) then
      decide ((⟨.executeQuery .createServerConfig, true⟩ : Event) ∈ h)
    else true
  number := fun h config => storedValue 0 h config

/-- Statement of `a3.sql` in the dependent migration set. -/
def alterT : Str := "ALTER TABLE t ADD c INT;".toList

/-- Statement of `b2.sql` in the dependent migration set. -/
def createT : Str := "CREATE TABLE t (id INT);".toList

/-- A database on which `alterT` succeeds only once `createT` has been executed. -/
def dependentDb : Database where
  answer := fun h c =>
    if c = .executeQuery (.statement alterT) then
      decide ((⟨.executeQuery (.statement createT), true⟩ : Event) ∈ h)
    else true
  number := fun h config => storedValue 0 h config

/-- File `a3.sql` alters the table that `b2.sql` creates. -/
def dependentContent (name : Str) : Str :=
  if name = "a3.sql".toList then alterT else createT

/-- The directory of the dependent migration set. -/
def dependentEntries : List Str := ["b2.sql".toList, "a3.sql".toList, "README".toList]

/-- A database on which every commit fails. -/
def commitFailsDb : Database := simpleDb 0 fun c => decide (c = .commit)

/-- A database whose bookkeeping table exists and has no `db_version` row. -/
def noVersionRowDb : Database :=
  simpleDb 0 fun c => decide (c = .storeQuery (.selectConfig dbVersionKey))

/-- A scripting host with the single unit `data/migrations/<only>.lua`, which returns true. -/
def singleUnit (only : Int) : LuaHost where
  newstate := true
  dofile := fun v => decide (v = only)
  reserveScriptEnv := fun _ => true
  pcall := fun _ => true
  getBoolean := fun _ => true

/-- A scripting host with units 0 and 1, of which unit 1 returns false. -/
def twoUnits : LuaHost where
  newstate := true
  dofile := fun v => decide (v = 0 ∨ v = 1)
  reserveScriptEnv := fun _ => true
  pcall := fun _ => true
  getBoolean := fun v => decide (v = 0)

/-! # Theorems -/

/-! ## Strings: `find` -/

theorem find_eq_none_iff (pat : Str) (s : Str) : find pat s = none ↔ ¬ pat <:+: s := by
  induction s with
  | nil =>
    cases pat <;> simp [find]
  | cons c cs ih =>
    unfold find
    by_cases hp : pat.isPrefixOf (c :: cs) = true
    · have hp2 : pat <+: c :: cs := List.isPrefixOf_iff_prefix.mp hp
      simp [hp, List.infix_cons_iff, hp2]
    · have hp2 : ¬ pat <+: c :: cs := fun h => hp (List.isPrefixOf_iff_prefix.mpr h)
      simp only [hp, Bool.false_eq_true, if_false, Option.map_eq_none', ih, List.infix_cons_iff,
        hp2, false_or]

theorem find_some_spec (pat : Str) (s : Str) (i : Nat) (hf : find pat s = some i) :
    s = s.take i ++ pat ++ s.drop (i + pat.length) := by
  induction s generalizing i with
  | nil =>
    cases pat with
    | nil => simp [find] at hf; subst hf; simp
    | cons a as => simp [find] at hf
  | cons c cs ih =>
    unfold find at hf
    by_cases hp : pat.isPrefixOf (c :: cs) = true
    · simp only [hp, if_true, Option.some.injEq] at hf
      subst hf
      obtain ⟨t, ht⟩ := List.isPrefixOf_iff_prefix.mp hp
      simp only [List.take_zero, List.nil_append, Nat.zero_add]
      rw [← ht]; simp
    · simp only [hp, Bool.false_eq_true, if_false, Option.map_eq_some'] at hf
      obtain ⟨j, hj, rfl⟩ := hf
      have := ih j hj
      have e : j + 1 + pat.length = (j + pat.length) + 1 := by omega
      rw [e]
      simp only [List.take_succ_cons, List.drop_succ_cons, List.cons_append]
      rw [← this]

theorem find_le_length (pat : Str) (s : Str) (i : Nat) (hf : find pat s = some i) :
    i + pat.length ≤ s.length := by
  induction s generalizing i with
  | nil =>
    cases pat with
    | nil => simp [find] at hf; subst hf; simp
    | cons a as => simp [find] at hf
  | cons c cs ih =>
    unfold find at hf
    by_cases hp : pat.isPrefixOf (c :: cs) = true
    · simp only [hp, if_true, Option.some.injEq] at hf
      subst hf
      have := (List.isPrefixOf_iff_prefix.mp hp).length_le
      omega
    · simp only [hp, Bool.false_eq_true, if_false, Option.map_eq_some'] at hf
      obtain ⟨j, hj, rfl⟩ := hf
      have := ih j hj
      simp only [List.length_cons]
      omega

/-! ## Trigger extraction -/

theorem drop_find (pat : Str) (s : Str) (i : Nat) (hf : find pat s = some i) :
    s.drop i = pat ++ s.drop (i + pat.length) := by
  have hlen := find_le_length pat s i hf
  have h := find_some_spec pat s i hf
  have h2 : s.drop i = (s.take i ++ pat ++ s.drop (i + pat.length)).drop i := by rw [← h]
  rw [h2, List.append_assoc, List.drop_append_of_le_length (by simp; omega)]
  rw [List.drop_of_length_le (by simp)]
  simp

/-- When the first start marker lies before the first end marker, the triggers are the
pieces of the trimmed text between the markers and the content keeps the text before the
start marker followed by the text after the end marker. -/
theorem gatherMigrationTriggers_ordered (content : Str) (s e : Nat)
    (hlen : content.length < sizeT)
    (hs : find startMarker content = some s) (he : find endMarker content = some e)
    (hse : s + 11 ≤ e) :
    gatherMigrationTriggers content =
        (split (trim ((content.drop (s + 11)).take (e - (s + 11)))) '|',
          content.take s ++ content.drop (e + 11)) ∧
      content = content.take s ++ startMarker ++ (content.drop (s + 11)).take (e - (s + 11))
        ++ endMarker ++ content.drop (e + 11) := by
  have hle := find_le_length endMarker content e he
  have hl : endMarker.length = 11 := by decide
  have hl2 : startMarker.length = 11 := by decide
  rw [hl] at hle
  constructor
  · unfold gatherMigrationTriggers
    simp only [hs, he, substr, erase]
    have e1 : (e + sizeT - (s + 11)) % sizeT = e - (s + 11) := by
      have : e + sizeT - (s + 11) = (e - (s + 11)) + sizeT := by omega
      rw [this, Nat.add_mod_right, Nat.mod_eq_of_lt (by omega)]
    have e2 : (e + 11 + sizeT - s) % sizeT = e + 11 - s := by
      have : e + 11 + sizeT - s = (e + 11 - s) + sizeT := by omega
      rw [this, Nat.add_mod_right, Nat.mod_eq_of_lt (by omega)]
    rw [e1, e2, List.drop_drop]
    have e3 : e + 11 - s + s = e + 11 := by omega
    have e4 : s + (e + 11 - s) = e + 11 := by omega
    first
      | rw [e3]
      | rw [e4]
  · have d1 := drop_find startMarker content s hs
    have d2 := drop_find endMarker content e he
    rw [hl2] at d1
    rw [hl] at d2
    have d3 : content.drop (s + 11) =
        (content.drop (s + 11)).take (e - (s + 11)) ++ content.drop e := by
      conv_lhs => rw [← List.take_append_drop (e - (s + 11)) (content.drop (s + 11))]
      rw [List.drop_drop]
      have e5 : e - (s + 11) + (s + 11) = e := by omega
      have e6 : (s + 11) + (e - (s + 11)) = e := by omega
      first
        | rw [e5]
        | rw [e6]
    conv_lhs => rw [← List.take_append_drop s content, d1, d3, d2]
    simp only [List.append_assoc]

/-- C5: content with the start marker but no end marker, and likewise content with no
start marker, yields no triggers and is left unchanged. -/
theorem gatherMigrationTriggers_soft_failure (content : Str)
    (h : (startMarker <:+: content ∧ ¬ endMarker <:+: content) ∨ ¬ startMarker <:+: content) :
    gatherMigrationTriggers content = ([], content) := by
  unfold gatherMigrationTriggers
  rcases h with ⟨_, h⟩ | h
  · rw [(find_eq_none_iff endMarker content).mpr h]
    cases find startMarker content <;> rfl
  · rw [(find_eq_none_iff startMarker content).mpr h]

theorem gatherMigrationTriggers_soft_failure_witness :
    ((startMarker <:+: "DELIMITER | CREATE TRIGGER t; END |".toList ∧
        ¬ endMarker <:+: "DELIMITER | CREATE TRIGGER t; END |".toList) ∨
        ¬ startMarker <:+: "DELIMITER | CREATE TRIGGER t; END |".toList) ∧
      gatherMigrationTriggers "DELIMITER | CREATE TRIGGER t; END |".toList =
        ([], "DELIMITER | CREATE TRIGGER t; END |".toList) :=
  ⟨Or.inl ⟨⟨[], " CREATE TRIGGER t; END |".toList, by decide⟩,
      (find_eq_none_iff _ _).mp (by decide)⟩,
    gatherMigrationTriggers_soft_failure _
      (Or.inl ⟨⟨[], " CREATE TRIGGER t; END |".toList, by decide⟩,
        (find_eq_none_iff _ _).mp (by decide)⟩)⟩

/-- The trigger block of the specification yields one trigger body, with its inner `;`, and
an empty remainder. -/
theorem gatherMigrationTriggers_single_block :
    gatherMigrationTriggers
        "DELIMITER |  CREATE TRIGGER t ... ; ... END |  DELIMITER ;".toList =
      (["CREATE TRIGGER t ... ; ... END ".toList], []) := by
  decide

/-- C4: on content whose end marker also occurs before the start marker, the end marker
found is the one in front: the trigger list takes in the closing marker as a piece and
everything from the start marker on is erased. -/
theorem gatherMigrationTriggers_end_marker_first :
    gatherMigrationTriggers
        "DELIMITER ; CREATE TABLE a (id INT); DELIMITER | CREATE TRIGGER t BEGIN x; END | DELIMITER ;".toList =
      (["CREATE TRIGGER t BEGIN x; END ".toList, " DELIMITER ;".toList],
        "DELIMITER ; CREATE TABLE a (id INT); ".toList) := by
  decide

/-! ## One migration file -/

theorem okStatements_nil : okStatements [] := by
  intro e he; simp at he

theorem okStatements_append {as bs : List Event} (ha : okStatements as) (hb : okStatements bs) :
    okStatements (as ++ bs) := by
  intro e he
  rcases List.mem_append.mp he with h | h
  · exact ha e h
  · exact hb e h

theorem executeAll_shape (db : Database) (h : List Event) (qs : List Str) :
    ((executeAll db h qs).1 = true ∧ okStatements (executeAll db h qs).2) ∨
    ((executeAll db h qs).1 = false ∧ ∃ es q, okStatements es ∧
      (executeAll db h qs).2 = es ++ [⟨.executeQuery (.statement q), false⟩]) := by
  induction qs generalizing h with
  | nil => left; exact ⟨rfl, okStatements_nil⟩
  | cons q qs ih =>
    unfold executeAll
    by_cases hq : (trim q).isEmpty = true
    · simp only [hq, if_true]; exact ih h
    · simp only [hq, Bool.false_eq_true, if_false]
      by_cases ha : db.answer h (.executeQuery (.statement (trim q ++ [';']))) = true
      · simp only [ha, if_true]
        rcases ih (h ++ [⟨.executeQuery (.statement (trim q ++ [';'])), true⟩]) with ⟨h1, h2⟩ | ⟨h1, es, q2, h2, h3⟩
        · left
          refine ⟨h1, ?_⟩
          intro e he
          rcases List.mem_cons.mp he with rfl | he
          · exact ⟨_, rfl⟩
          · exact h2 e he
        · right
          refine ⟨h1, ⟨.executeQuery (.statement (trim q ++ [';'])), true⟩ :: es, q2, ?_, ?_⟩
          · intro e he
            rcases List.mem_cons.mp he with rfl | he
            · exact ⟨_, rfl⟩
            · exact h2 e he
          · rw [h3]; rfl
      · simp only [ha, Bool.false_eq_true, if_false]
        right
        exact ⟨trivial, [], trim q ++ [';'], okStatements_nil, by simp⟩

/-- The four ways the loop body can go for one file: the file is not a candidate; the
transaction does not open; a statement or trigger fails and the transaction is rolled
back; every statement and trigger succeeds, the version is written and a commit is tried. -/
theorem registerDatabaseConfig_shape (db : Database) (h : List Event) (config : Str)
    (value : Int) :
    ∃ f g w, (w = Query.insertConfig config value ∨ w = Query.updateConfig config value) ∧
      registerDatabaseConfig db h config value =
        [⟨.storeQuery (.selectConfig config), f⟩, ⟨.executeQuery w, g⟩] := by
  unfold registerDatabaseConfig getDatabaseConfig
  by_cases ha : db.answer h (.storeQuery (.selectConfig config)) = true
  · exact ⟨true, db.answer (h ++ [⟨.storeQuery (.selectConfig config), true⟩])
      (.executeQuery (.updateConfig config value)), .updateConfig config value, Or.inr rfl,
      by simp [ha]⟩
  · exact ⟨false, db.answer (h ++ [⟨.storeQuery (.selectConfig config), false⟩])
      (.executeQuery (.insertConfig config value)), .insertConfig config value, Or.inl rfl,
      by simp [ha]⟩

theorem migrateFile_cases (db : Database) (content : Str → Str) (h : List Event) (version : Int)
    (name : Str) :
    ((∀ m, fileVersion name = some m → m ≤ version) ∧
      migrateFile db content h version name = (version, [])) ∨
    (∃ m, fileVersion name = some m ∧ version < m ∧
      migrateFile db content h version name = (version, [⟨.beginTransaction, false⟩])) ∨
    (∃ m es q b, fileVersion name = some m ∧ version < m ∧ okStatements es ∧
      migrateFile db content h version name =
        (version, ⟨.beginTransaction, true⟩ :: es ++
          [⟨.executeQuery (.statement q), false⟩, ⟨.rollback, b⟩])) ∨
    (∃ m es f g w, fileVersion name = some m ∧ version < m ∧ okStatements es ∧
      (w = Query.insertConfig dbSqlVersionKey m ∨ w = Query.updateConfig dbSqlVersionKey m) ∧
      migrateFile db content h version name =
        (m, ⟨.beginTransaction, true⟩ :: es ++
          [⟨.storeQuery (.selectConfig dbSqlVersionKey), f⟩, ⟨.executeQuery w, g⟩,
            ⟨.commit, true⟩])) ∨
    (∃ m es f g w b, fileVersion name = some m ∧ version < m ∧ okStatements es ∧
      (w = Query.insertConfig dbSqlVersionKey m ∨ w = Query.updateConfig dbSqlVersionKey m) ∧
      migrateFile db content h version name =
        (m, ⟨.beginTransaction, true⟩ :: es ++
          [⟨.storeQuery (.selectConfig dbSqlVersionKey), f⟩, ⟨.executeQuery w, g⟩,
            ⟨.commit, false⟩, ⟨.rollback, b⟩])) := by
  by_cases hn : isNumbers (substr name 1 1) = true
  swap
  · left
    simp [migrateFile, fileVersion, hn]
  by_cases hv : atoi (substr name 1 1) > version
  swap
  · left
    refine ⟨?_, by simp [migrateFile, hn, hv]⟩
    intro m hm
    simp only [fileVersion, hn, if_true, Option.some.injEq] at hm
    omega
  have hfv : fileVersion name = some (atoi (substr name 1 1)) := by
    simp [fileVersion, hn]
  right
  by_cases hb : db.answer h .beginTransaction = true
  swap
  · left
    exact ⟨_, hfv, hv, by simp [migrateFile, hn, hv, hb]⟩
  right
  generalize hq : split (gatherMigrationTriggers (content name)).2 ';' = queries
  generalize ht : (gatherMigrationTriggers (content name)).1 = triggers
  rcases executeAll_shape db (h ++ [⟨.beginTransaction, true⟩]) queries with
    ⟨p1, s1⟩ | ⟨p1, es1, q1, s1, e1⟩
  · rcases executeAll_shape db (h ++ [⟨.beginTransaction, true⟩] ++
        (executeAll db (h ++ [⟨.beginTransaction, true⟩]) queries).2) triggers with
      ⟨p2, s2⟩ | ⟨p2, es2, q2, s2, e2⟩
    · right
      obtain ⟨f, g, w, hw, hr⟩ := registerDatabaseConfig_shape db
        (h ++ ([⟨.beginTransaction, true⟩] ++
          (executeAll db (h ++ [⟨.beginTransaction, true⟩]) queries).2 ++
          (executeAll db (h ++ [⟨.beginTransaction, true⟩] ++
            (executeAll db (h ++ [⟨.beginTransaction, true⟩]) queries).2) triggers).2))
        dbSqlVersionKey (atoi (substr name 1 1))
      by_cases hc : db.answer (h ++ ([⟨.beginTransaction, true⟩] ++
          (executeAll db (h ++ [⟨.beginTransaction, true⟩]) queries).2 ++
          (executeAll db (h ++ [⟨.beginTransaction, true⟩] ++
            (executeAll db (h ++ [⟨.beginTransaction, true⟩]) queries).2) triggers).2) ++
          [⟨.storeQuery (.selectConfig dbSqlVersionKey), f⟩, ⟨.executeQuery w, g⟩]) .commit = true
      · left
        refine ⟨_, _, f, g, w, hfv, hv, okStatements_append s1 s2, hw, ?_⟩
        unfold migrateFile
        simp only [hn, hv, hb, if_true, hq, ht, p1, p2, hr, hc]
        simp
      · right
        exact ⟨_, _, f, g, w, _, hfv, hv, okStatements_append s1 s2, hw, by
          unfold migrateFile
          simp only [hn, hv, hb, if_true, hq, ht, p1, p2, hr, hc, Bool.false_eq_true, if_false]
          simp only [List.append_assoc, List.cons_append, List.nil_append, List.singleton_append]
          rfl⟩
    · left
      exact ⟨_, _, q2, _, hfv, hv, okStatements_append s1 s2, by
        unfold migrateFile
        simp only [hn, hv, hb, if_true, hq, ht, p1, p2, e2, Bool.false_eq_true, if_false]
        simp only [List.append_assoc, List.cons_append, List.nil_append, List.singleton_append]
        rfl⟩
  · left
    exact ⟨_, es1, q1, _, hfv, hv, s1, by
      unfold migrateFile
      simp only [hn, hv, hb, if_true, hq, ht, p1, e1, Bool.false_eq_true, if_false]
      simp only [List.append_assoc, List.cons_append, List.nil_append, List.singleton_append]
      rfl⟩

/-! ## The loop over the files -/

theorem configWrites_append (config : Str) (as bs : List Event) :
    configWrites config (as ++ bs) = configWrites config as ++ configWrites config bs := by
  simp [configWrites, List.filterMap_append]

theorem configWrites_okStatements (config : Str) (es : List Event) (hs : okStatements es) :
    configWrites config es = [] := by
  induction es with
  | nil => rfl
  | cons e es ih =>
    obtain ⟨q, rfl⟩ := hs e (List.mem_cons_self _ _)
    have := ih (fun x hx => hs x (List.mem_cons_of_mem _ hx))
    simp only [configWrites] at this ⊢
    simp [List.filterMap_cons, this]

/-- The version after a file and the writes of the SQL version made for it: none and the
version is unchanged, or the version of the file, which is larger, once. -/
theorem migrateFile_writes (db : Database) (content : Str → Str) (h : List Event)
    (version : Int) (name : Str) :
    ((migrateFile db content h version name).1 = version ∧
      configWrites dbSqlVersionKey (migrateFile db content h version name).2 = []) ∨
    (version < (migrateFile db content h version name).1 ∧
      fileVersion name = some (migrateFile db content h version name).1 ∧
      configWrites dbSqlVersionKey (migrateFile db content h version name).2 =
        [(migrateFile db content h version name).1]) := by
  rcases migrateFile_cases db content h version name with
    ⟨_, e⟩ | ⟨m, _, _, e⟩ | ⟨m, es, q, b, _, _, hs, e⟩ | ⟨m, es, f, g, w, hm, hv, hs, hw, e⟩ |
    ⟨m, es, f, g, w, b, hm, hv, hs, hw, e⟩
  · left; rw [e]; exact ⟨rfl, rfl⟩
  · left; rw [e]; exact ⟨rfl, rfl⟩
  · left; rw [e]
    refine ⟨rfl, ?_⟩
    show configWrites dbSqlVersionKey ([⟨.beginTransaction, true⟩] ++ es ++ _) = []
    rw [configWrites_append, configWrites_append, configWrites_okStatements _ es hs]
    rfl
  · right; rw [e]
    refine ⟨hv, hm, ?_⟩
    show configWrites dbSqlVersionKey ([⟨.beginTransaction, true⟩] ++ es ++ _) = [m]
    rw [configWrites_append, configWrites_append, configWrites_okStatements _ es hs]
    rcases hw with rfl | rfl <;> simp [configWrites]
  · right; rw [e]
    refine ⟨hv, hm, ?_⟩
    show configWrites dbSqlVersionKey ([⟨.beginTransaction, true⟩] ++ es ++ _) = [m]
    rw [configWrites_append, configWrites_append, configWrites_okStatements _ es hs]
    rcases hw with rfl | rfl <;> simp [configWrites]

theorem migrateLoop_mem (db : Database) (content : Str → Str) (fs : List Str) :
    ∀ (h : List Event) (v : Int) (r : FileRun), r ∈ (migrateLoop db content h v fs).2 →
      ∃ h', v ≤ r.before ∧ r.file ∈ fs ∧
        migrateFile db content h' r.before r.file = (r.after, r.events) := by
  induction fs with
  | nil => intro h v r hr; simp [migrateLoop] at hr
  | cons f fs ih =>
    intro h v r hr
    simp only [migrateLoop, List.mem_cons] at hr
    rcases hr with rfl | hr
    · exact ⟨h, le_refl _, List.mem_cons_self _ _, rfl⟩
    · obtain ⟨h', h1, h2, h3⟩ := ih _ _ r hr
      refine ⟨h', ?_, List.mem_cons_of_mem _ h2, h3⟩
      rcases migrateFile_writes db content h v f with ⟨e, _⟩ | ⟨e, _⟩ <;> omega

theorem fileEvents_cons (r : FileRun) (rs : List FileRun) :
    fileEvents (r :: rs) = r.events ++ fileEvents rs := by
  simp [fileEvents]

/-- The writes of the SQL version the loop makes are strictly increasing and lie above the
version the loop starts from and at most at the version it ends with. -/
theorem migrateLoop_writes (db : Database) (content : Str → Str) (fs : List Str) :
    ∀ (h : List Event) (v : Int),
      v ≤ (migrateLoop db content h v fs).1 ∧
      List.Pairwise (· < ·)
        (configWrites dbSqlVersionKey (fileEvents (migrateLoop db content h v fs).2)) ∧
      ∀ w ∈ configWrites dbSqlVersionKey (fileEvents (migrateLoop db content h v fs).2),
        v < w ∧ w ≤ (migrateLoop db content h v fs).1 := by
  induction fs with
  | nil => intro h v; simp [migrateLoop, fileEvents, configWrites]
  | cons f fs ih =>
    intro h v
    simp only [migrateLoop, fileEvents_cons, configWrites_append]
    obtain ⟨i1, i2, i3⟩ := ih (h ++ (migrateFile db content h v f).2) (migrateFile db content h v f).1
    rcases migrateFile_writes db content h v f with ⟨e1, e2⟩ | ⟨e1, _, e2⟩
    · rw [e2, List.nil_append]
      refine ⟨by omega, i2, ?_⟩
      intro w hw
      have := i3 w hw
      omega
    · rw [e2]
      refine ⟨by omega, ?_, ?_⟩
      · simp only [List.singleton_append, List.pairwise_cons]
        exact ⟨fun w hw => (i3 w hw).1, i2⟩
      · intro w hw
        simp only [List.singleton_append, List.mem_cons] at hw
        rcases hw with rfl | hw
        · exact ⟨e1, i1⟩
        · have := i3 w hw
          omega

/-! ## File versions -/

theorem int32_of_range (z : Int) (h1 : -2147483648 ≤ z) (h2 : z ≤ 2147483647) : int32 z = z := by
  unfold int32; omega

theorem int32_range (z : Int) : -2147483648 ≤ int32 z ∧ int32 z ≤ 2147483647 := by
  unfold int32; omega

theorem atoi_digit (c : Char) (hc : isDigit c = true) : atoi [c] = (c.toNat : Int) - 48 := by
  simp only [isDigit, Bool.and_eq_true, decide_eq_true_eq] at hc
  have hs : isSpace c = false := by
    simp only [isSpace, Bool.or_eq_false_iff, Bool.and_eq_false_iff, beq_eq_false_iff_ne,
      decide_eq_false_iff_not]
    omega
  have h1 : c ≠ '-' := by
    rintro rfl
    have : ('-' : Char).toNat = 45 := by decide
    omega
  have h2 : c ≠ '+' := by
    rintro rfl
    have : ('+' : Char).toNat = 43 := by decide
    omega
  have hd : isDigit c = true := by
    simp only [isDigit, Bool.and_eq_true, decide_eq_true_eq]; exact hc
  simp only [atoi, List.dropWhile, hs, h1, h2, if_false, atoiDigits, hd, if_true]
  rw [int32_of_range] <;> omega

/-- Whatever `isNumbers` accepts, `atoi` reads the one-character token at index 1 as a
number between 0 and 9. -/
theorem atoi_substr_range (name : Str) :
    0 ≤ atoi (substr name 1 1) ∧ atoi (substr name 1 1) ≤ 9 := by
  unfold substr
  cases hd : name.drop 1 with
  | nil => simp [atoi]
  | cons c cs =>
    simp only [List.take_succ_cons, List.take_zero]
    by_cases hs : isSpace c = true
    · simp [atoi, List.dropWhile, hs]
    · by_cases h1 : c = '-'
      · subst h1
        simp [atoi, List.dropWhile, hs, atoiDigits, int32]
      · by_cases h2 : c = '+'
        · subst h2
          simp [atoi, List.dropWhile, hs, atoiDigits, int32]
        · by_cases hc : isDigit c = true
          · rw [atoi_digit c hc]
            simp only [isDigit, Bool.and_eq_true, decide_eq_true_eq] at hc
            omega
          · simp [atoi, List.dropWhile, hs, h1, h2, atoiDigits, hc, int32]

/-- The version of a file is a single decimal digit. -/
theorem fileVersion_range (name : Str) (m : Int) (h : fileVersion name = some m) :
    0 ≤ m ∧ m ≤ 9 := by
  unfold fileVersion substr at h
  cases hd : name.drop 1 with
  | nil =>
    rw [hd] at h
    simp [isNumbers, atoi] at h
    omega
  | cons c cs =>
    rw [hd] at h
    simp only [List.take_succ_cons, List.take_zero, isNumbers, List.all_cons, List.all_nil,
      Bool.and_true] at h
    by_cases hc : isDigit c = true
    · simp only [hc, if_true, Option.some.injEq] at h
      rw [atoi_digit c hc] at h
      simp only [isDigit, Bool.and_eq_true, decide_eq_true_eq] at hc
      omega
    · simp [hc] at h

/-- The version of a file with a character at index 1: that character read as a digit. -/
theorem fileVersion_index_one (a c : Char) (rest : Str) :
    fileVersion (a :: c :: rest) = if isDigit c then some ((c.toNat : Int) - 48) else none := by
  unfold fileVersion substr
  simp only [List.drop_succ_cons, List.drop_zero, List.take_succ_cons, List.take_zero, isNumbers,
    List.all_cons, List.all_nil, Bool.and_true]
  by_cases hc : isDigit c = true
  · simp only [hc, if_true, atoi_digit c hc]
  · simp [hc]

theorem loadMigrationFiles_shape (entries : List Str) (name : Str)
    (h : name ∈ loadMigrationFiles entries) :
    ∃ a c rest, name = a :: c :: rest := by
  unfold loadMigrationFiles at h
  simp only [List.mem_filter] at h
  obtain ⟨_, h⟩ := h
  match name, h with
  | [], h => simp at h
  | [_], h => simp at h
  | a :: c :: rest, _ => exact ⟨a, c, rest, rfl⟩

theorem insertSorted_perm (s : Str) (l : List Str) : (insertSorted s l).Perm (s :: l) := by
  induction l with
  | nil => exact List.Perm.refl _
  | cons t ts ih =>
    unfold insertSorted
    by_cases h : strLess t s = true
    · simp only [h, if_true]
      exact (List.Perm.cons t ih).trans (List.Perm.swap s t ts)
    · simp only [h, Bool.false_eq_true, if_false]
      exact List.Perm.refl _

/-- Sorting keeps exactly the files it is given. -/
theorem sortFiles_perm (l : List Str) : (sortFiles l).Perm l := by
  induction l with
  | nil => exact List.Perm.refl _
  | cons s l ih =>
    show (insertSorted s (sortFiles l)).Perm (s :: l)
    exact (insertSorted_perm s _).trans (List.Perm.cons s ih)

/-- When no file has a version above the current one the loop makes no call at all. -/
theorem migrateLoop_idle (db : Database) (content : Str → Str) (fs : List Str) (v : Int)
    (hfs : ∀ f ∈ fs, ∀ m, fileVersion f = some m → m ≤ v) :
    ∀ h, migrateLoop db content h v fs = (v, fs.map fun f => ⟨f, v, v, []⟩) := by
  induction fs with
  | nil => intro h; rfl
  | cons f fs ih =>
    intro h
    have hf : migrateFile db content h v f = (v, []) := by
      rcases migrateFile_cases db content h v f with
        ⟨_, e⟩ | ⟨m, hm, hv, _⟩ | ⟨m, es, q, b, hm, hv, _⟩ | ⟨m, es, f', g, w, hm, hv, _⟩ |
        ⟨m, es, f', g, w, b, hm, hv, _⟩
      · exact e
      all_goals
        have := hfs f (List.mem_cons_self _ _) m hm
        omega
    simp only [migrateLoop, hf, List.append_nil, List.map_cons]
    rw [ih (fun f' hf' => hfs f' (List.mem_cons_of_mem _ hf')) h]

theorem migrateLoop_le_nine (db : Database) (content : Str → Str) (fs : List Str) :
    ∀ (h : List Event) (v : Int), (migrateLoop db content h v fs).1 ≤ max v 9 := by
  induction fs with
  | nil => intro h v; simp [migrateLoop]
  | cons f fs ih =>
    intro h v
    simp only [migrateLoop]
    have i := ih (h ++ (migrateFile db content h v f).2) (migrateFile db content h v f).1
    rcases migrateFile_writes db content h v f with ⟨e, _⟩ | ⟨_, e, _⟩
    · rw [e] at i ⊢; exact i
    · have := fileVersion_range f _ e
      omega

theorem getDatabaseSQLVersion_writes (db : Database) (h : List Event) :
    configWrites dbSqlVersionKey (getDatabaseSQLVersion db h).2 = [] ∨
    ((getDatabaseSQLVersion db h).1 = 0 ∧
      configWrites dbSqlVersionKey (getDatabaseSQLVersion db h).2 = [0]) := by
  unfold getDatabaseSQLVersion tableExists getDatabaseConfig
  by_cases ht : db.answer h (.storeQuery (.selectTable serverConfig)) = true
  · left
    simp only [ht, Bool.not_true, Bool.false_eq_true, if_false]
    split <;> simp [configWrites]
  · right
    simp [ht, configWrites]

theorem registerDatabaseConfig_writes (db : Database) (h : List Event) (config : Str)
    (value : Int) :
    configWrites config (registerDatabaseConfig db h config value) = [value] := by
  obtain ⟨f, g, w, hw, e⟩ := registerDatabaseConfig_shape db h config value
  rw [e]
  rcases hw with rfl | rfl <;> simp [configWrites]

theorem getDatabaseVersion_writes (db : Database) (h : List Event) :
    configWrites dbVersionKey (getDatabaseVersion db h).2 = [] ∧
      -2147483648 ≤ (getDatabaseVersion db h).1 ∧ (getDatabaseVersion db h).1 ≤ 2147483647 := by
  unfold getDatabaseVersion tableExists getDatabaseConfig
  by_cases ht : db.answer h (.storeQuery (.selectTable serverConfig)) = true
  · simp only [ht, Bool.not_true, Bool.false_eq_true, if_false]
    by_cases hc : db.answer (h ++ [⟨.storeQuery (.selectTable serverConfig), true⟩])
        (.storeQuery (.selectConfig dbVersionKey)) = true
    · simp only [hc, if_true]
      have := int32_range (db.number (h ++ [⟨.storeQuery (.selectTable serverConfig), true⟩])
        dbVersionKey)
      simp [configWrites, this.1, this.2]
    · simp [hc, configWrites]
  · simp [ht, configWrites]

/-- Along the loop of `updateDatabase` every write of the logical version is one more than
the version before it, as long as that one is below the largest `int32_t`. -/
theorem updateLoop_chain (db : Database) (lua : LuaHost) (fuel : Nat) :
    ∀ (h : List Event) (v : Int), -2147483648 ≤ v →
      List.Chain (fun a b => a < 2147483647 → b = a + 1) v
        (configWrites dbVersionKey (updateLoop db lua fuel h v).events) := by
  induction fuel with
  | zero => intro h v _; exact List.Chain.nil
  | succ n ih =>
    intro h v hv
    unfold updateLoop
    by_cases h1 : lua.dofile v = true
    swap
    · simp only [h1, Bool.not_false, if_true]; exact List.Chain.nil
    by_cases h2 : lua.reserveScriptEnv v = true
    swap
    · simp only [h1, h2, Bool.not_true, Bool.not_false, Bool.false_eq_true, if_false, if_true]
      exact List.Chain.nil
    by_cases h3 : lua.pcall v = true
    swap
    · simp only [h1, h2, h3, Bool.not_true, Bool.not_false, Bool.false_eq_true, if_false, if_true]
      exact List.Chain.nil
    by_cases h4 : lua.getBoolean v = true
    swap
    · simp only [h1, h2, h3, h4, Bool.not_true, Bool.not_false, Bool.false_eq_true, if_false,
        if_true]
      exact List.Chain.nil
    simp only [h1, h2, h3, h4, Bool.not_true, Bool.false_eq_true, if_false, configWrites_append,
      registerDatabaseConfig_writes, List.singleton_append]
    refine List.Chain.cons ?_ (ih _ _ (int32_range _).1)
    intro hlt
    exact int32_of_range _ (by omega) (by omega)

/-! ## Runs -/

theorem applySQLMigrations_start (db : Database) (content : Str → Str) (h : List Event)
    (entries : List Str) :
    (applySQLMigrations db content h entries).start = (getDatabaseSQLVersion db h).1 := by
  unfold applySQLMigrations
  by_cases hv : (getDatabaseSQLVersion db h).1 < 0 <;> simp [hv]

theorem applySQLMigrations_of_nonneg (db : Database) (content : Str → Str) (h : List Event)
    (entries : List Str) (hv : 0 ≤ (getDatabaseSQLVersion db h).1) :
    applySQLMigrations db content h entries =
      ⟨(migrateLoop db content (h ++ (getDatabaseSQLVersion db h).2)
          (getDatabaseSQLVersion db h).1 (sortFiles (loadMigrationFiles entries))).1,
        (getDatabaseSQLVersion db h).1, (getDatabaseSQLVersion db h).2,
        (migrateLoop db content (h ++ (getDatabaseSQLVersion db h).2)
          (getDatabaseSQLVersion db h).1 (sortFiles (loadMigrationFiles entries))).2⟩ := by
  unfold applySQLMigrations
  have : ¬ (getDatabaseSQLVersion db h).1 < 0 := by omega
  simp only [this, if_false]

theorem applySQLMigrations_start_le_result (db : Database) (content : Str → Str) (h : List Event)
    (entries : List Str) :
    (applySQLMigrations db content h entries).start ≤
      (applySQLMigrations db content h entries).result := by
  unfold applySQLMigrations
  by_cases hv : (getDatabaseSQLVersion db h).1 < 0
  · simp only [hv, if_true]; omega
  · simp only [hv, if_false]
    exact (migrateLoop_writes db content _ _ _).1

/-! ## Claims about the file-based runner -/

theorem okStatements_not_mem (es : List Event) (hs : okStatements es) (e : Event)
    (hne : ∀ q, e ≠ ⟨.executeQuery (.statement q), true⟩) : e ∉ es := by
  intro he
  obtain ⟨q, rfl⟩ := hs e he
  exact hne q rfl

theorem applySQLMigrations_files_mem (db : Database) (content : Str → Str) (h : List Event)
    (entries : List Str) (r : FileRun) (hr : r ∈ (applySQLMigrations db content h entries).files) :
    ∃ h', (applySQLMigrations db content h entries).start ≤ r.before ∧
      r.file ∈ loadMigrationFiles entries ∧
      migrateFile db content h' r.before r.file = (r.after, r.events) := by
  unfold applySQLMigrations at hr ⊢
  by_cases hv : (getDatabaseSQLVersion db h).1 < 0
  · simp [hv] at hr
  · simp only [hv, if_false] at hr ⊢
    obtain ⟨h', h1, h2, h3⟩ := migrateLoop_mem db content _ _ _ r hr
    exact ⟨h', h1, (sortFiles_perm _).mem_iff.mp h2, h3⟩

/-- C1: a file in which a statement or trigger fails to execute is a file whose version
exceeds the current one; the last call made for it is `rollback` and no commit is called,
no call reads or writes `db_sql_version`, and the version after the file is the version
before it. -/
theorem applySQLMigrations_atomic (db : Database) (content : Str → Str) (h : List Event)
    (entries : List Str) (r : FileRun)
    (hr : r ∈ (applySQLMigrations db content h entries).files)
    (hfail : ∃ q, (⟨.executeQuery (.statement q), false⟩ : Event) ∈ r.events) :
    (∃ m, fileVersion r.file = some m ∧ r.before < m) ∧
      (∃ b, r.events.getLast? = some ⟨.rollback, b⟩) ∧
      (∀ b, (⟨.commit, b⟩ : Event) ∉ r.events) ∧
      (∀ e ∈ r.events, touchesConfig dbSqlVersionKey e.call = false) ∧
      r.after = r.before := by
  obtain ⟨h', _, _, hm⟩ := applySQLMigrations_files_mem db content h entries r hr
  obtain ⟨q0, hq0⟩ := hfail
  have hst : ∀ (es : List Event), okStatements es →
      ∀ e ∈ es, touchesConfig dbSqlVersionKey e.call = false := by
    intro es hs e he
    obtain ⟨q, rfl⟩ := hs e he
    rfl
  rcases migrateFile_cases db content h' r.before r.file with
    ⟨_, e⟩ | ⟨m, _, _, e⟩ | ⟨m, es, q, b, hfv, hv, hs, e⟩ | ⟨m, es, f, g, w, _, _, hs, hw, e⟩ |
    ⟨m, es, f, g, w, b, _, _, hs, hw, e⟩
  · rw [hm] at e
    have e2 : r.events = [] := (Prod.mk.inj e).2
    rw [e2] at hq0; simp at hq0
  · rw [hm] at e
    have e2 := (Prod.mk.inj e).2
    rw [e2] at hq0; simp at hq0
  · rw [hm] at e
    have e1 := (Prod.mk.inj e).1
    have e2 := (Prod.mk.inj e).2
    refine ⟨⟨m, hfv, hv⟩, ⟨b, ?_⟩, ?_, ?_, e1⟩
    · rw [e2]
      have : (⟨.beginTransaction, true⟩ : Event) :: es ++
          [⟨.executeQuery (.statement q), false⟩, ⟨.rollback, b⟩] =
          ((⟨.beginTransaction, true⟩ : Event) :: es ++
            [⟨.executeQuery (.statement q), false⟩]) ++ [⟨.rollback, b⟩] := by simp
      rw [this, List.getLast?_append]
      rfl
    · intro b' hb'
      rw [e2] at hb'
      simp only [List.cons_append, List.mem_cons, List.mem_append, Event.mk.injEq,
        reduceCtorEq, false_and, List.mem_nil_iff, or_false, false_or] at hb'
      exact okStatements_not_mem es hs _ (by intro q; simp) hb'
    · intro e' he'
      rw [e2] at he'
      simp only [List.cons_append, List.mem_cons, List.mem_append, List.mem_nil_iff,
        or_false] at he'
      rcases he' with rfl | he' | rfl | rfl
      · rfl
      · exact hst es hs e' he'
      · rfl
      · rfl
  · rw [hm] at e
    have e2 := (Prod.mk.inj e).2
    rw [e2] at hq0
    simp only [List.cons_append, List.mem_cons, List.mem_append, Event.mk.injEq,
      reduceCtorEq, false_and, List.mem_nil_iff, or_false, false_or, Call.executeQuery.injEq,
      and_false] at hq0
    rcases hq0 with hq0 | hq0
    · exact absurd hq0 (okStatements_not_mem es hs _ (by intro q; simp))
    · rcases hw with rfl | rfl <;> simp at hq0
  · rw [hm] at e
    have e2 := (Prod.mk.inj e).2
    rw [e2] at hq0
    simp only [List.cons_append, List.mem_cons, List.mem_append, Event.mk.injEq,
      reduceCtorEq, false_and, List.mem_nil_iff, or_false, false_or, Call.executeQuery.injEq,
      and_false] at hq0
    rcases hq0 with hq0 | hq0
    · exact absurd hq0 (okStatements_not_mem es hs _ (by intro q; simp))
    · rcases hw with rfl | rfl <;> simp at hq0

theorem applySQLMigrations_atomic_witness :
    (secondFailsRun ∈
        (applySQLMigrations secondFailsDb threeStatements [] ["v1.sql".toList]).files ∧
      ∃ q, (⟨.executeQuery (.statement q), false⟩ : Event) ∈ secondFailsRun.events) ∧
    ((∃ m, fileVersion secondFailsRun.file = some m ∧ secondFailsRun.before < m) ∧
      (∃ b, secondFailsRun.events.getLast? = some ⟨.rollback, b⟩) ∧
      (∀ b, (⟨.commit, b⟩ : Event) ∉ secondFailsRun.events) ∧
      (∀ e ∈ secondFailsRun.events, touchesConfig dbSqlVersionKey e.call = false) ∧
      secondFailsRun.after = secondFailsRun.before) :=
  ⟨⟨by decide, "INSERT INTO b VALUES (1);".toList, by decide⟩,
    applySQLMigrations_atomic secondFailsDb threeStatements [] ["v1.sql".toList] secondFailsRun
      (by decide) ⟨"INSERT INTO b VALUES (1);".toList, by decide⟩⟩

/-- Every write of the SQL version in a run is above the version read, except the seed 0
written while the version of a fresh database is read as 0. -/
theorem applySQLMigrations_writes_above_start (db : Database) (content : Str → Str) (h : List Event)
    (entries : List Str) :
    ∀ w ∈ configWrites dbSqlVersionKey (applySQLMigrations db content h entries).log,
      (applySQLMigrations db content h entries).start < w ∨
        (w = 0 ∧ (applySQLMigrations db content h entries).start = 0 ∧
          configWrites dbSqlVersionKey (applySQLMigrations db content h entries).reading = [0]) := by
  intro w hw
  unfold Run.log at hw
  rw [configWrites_append] at hw
  rcases List.mem_append.mp hw with hw | hw
  · right
    have hrd : (applySQLMigrations db content h entries).reading =
        (getDatabaseSQLVersion db h).2 := by
      unfold applySQLMigrations
      by_cases hv : (getDatabaseSQLVersion db h).1 < 0 <;> simp [hv]
    rw [hrd] at hw
    rw [applySQLMigrations_start, hrd]
    rcases getDatabaseSQLVersion_writes db h with e | ⟨e0, e⟩
    · rw [e] at hw; simp at hw
    · rw [e] at hw
      simp only [List.mem_singleton] at hw
      exact ⟨hw, e0, e⟩
  · left
    unfold applySQLMigrations at hw ⊢
    by_cases hv : (getDatabaseSQLVersion db h).1 < 0
    · simp [hv, fileEvents, configWrites] at hw
    · simp only [hv, if_false] at hw ⊢
      exact ((migrateLoop_writes db content _ _ _).2.2 w hw).1

/-- C9, as stated, fails: on a fresh database with the file `v1.sql` the run reads version 0
and writes 0 (the seed) and then 1 to `db_sql_version`; the written value 0 is not greater
than the version read. -/
theorem version_counters_monotone_counterexample :
    (applySQLMigrations freshDb oneStatement [] ["v1.sql".toList]).start = 0 ∧
      configWrites dbSqlVersionKey
        (applySQLMigrations freshDb oneStatement [] ["v1.sql".toList]).log = [0, 1] ∧
      ¬ (∀ w ∈ configWrites dbSqlVersionKey
          (applySQLMigrations freshDb oneStatement [] ["v1.sql".toList]).log,
        (applySQLMigrations freshDb oneStatement [] ["v1.sql".toList]).start < w) := by
  decide

/-- C9, amended: the writes of `db_sql_version` made by the loop of `applySQLMigrations` are
strictly increasing and each is greater than the version read at the start; over the whole
run the writes are strictly increasing too, and each is greater than the version read
except the seed 0 that reading the version of a fresh database writes (the version read is
then 0); the value returned is at least the version read; and in `updateDatabase` each
write of `db_version` whose predecessor is below the largest `int32_t` is exactly one more
than its predecessor. -/
theorem version_counters_monotone (db : Database) (content : Str → Str) (h : List Event)
    (entries : List Str) (lua : LuaHost) (fuel : Nat) :
    List.Pairwise (· < ·)
        (configWrites dbSqlVersionKey
          (fileEvents (applySQLMigrations db content h entries).files)) ∧
      (∀ w ∈ configWrites dbSqlVersionKey
          (fileEvents (applySQLMigrations db content h entries).files),
        (applySQLMigrations db content h entries).start < w) ∧
      List.Pairwise (· < ·)
        (configWrites dbSqlVersionKey (applySQLMigrations db content h entries).log) ∧
      (∀ w ∈ configWrites dbSqlVersionKey (applySQLMigrations db content h entries).log,
        (applySQLMigrations db content h entries).start < w ∨
          (w = 0 ∧ (applySQLMigrations db content h entries).start = 0 ∧
            configWrites dbSqlVersionKey
              (applySQLMigrations db content h entries).reading = [0])) ∧
      (applySQLMigrations db content h entries).start ≤
        (applySQLMigrations db content h entries).result ∧
      List.Chain' (fun a b => a < 2147483647 → b = a + 1)
        (configWrites dbVersionKey (updateDatabase db lua fuel h).events) := by
  have hx := applySQLMigrations_writes_above_start db content h entries
  have hu : List.Chain' (fun a b => a < 2147483647 → b = a + 1)
      (configWrites dbVersionKey (updateDatabase db lua fuel h).events) := by
    unfold updateDatabase
    by_cases hs : lua.newstate = true
    · simp only [hs, Bool.not_true, Bool.false_eq_true, if_false, configWrites_append,
        (getDatabaseVersion_writes db h).1, List.nil_append]
      have hc := updateLoop_chain db lua fuel (h ++ (getDatabaseVersion db h).2)
        (getDatabaseVersion db h).1 (getDatabaseVersion_writes db h).2.1
      exact List.Chain'.tail (l := _ :: _) hc
    · simp only [hs, Bool.not_false, if_true]
      exact List.chain'_nil
  have hold : List.Pairwise (· < ·)
        (configWrites dbSqlVersionKey
          (fileEvents (applySQLMigrations db content h entries).files)) ∧
      (∀ w ∈ configWrites dbSqlVersionKey
          (fileEvents (applySQLMigrations db content h entries).files),
        (applySQLMigrations db content h entries).start < w) ∧
      List.Pairwise (· < ·)
        (configWrites dbSqlVersionKey (applySQLMigrations db content h entries).log) ∧
      (applySQLMigrations db content h entries).start ≤
        (applySQLMigrations db content h entries).result := by
    unfold applySQLMigrations Run.log
    by_cases hv : (getDatabaseSQLVersion db h).1 < 0
    · simp only [hv, if_true, fileEvents, List.map_nil, List.flatten_nil, List.append_nil]
      refine ⟨by simp [configWrites], by simp [configWrites], ?_, by omega⟩
      rcases getDatabaseSQLVersion_writes db h with e | ⟨_, e⟩ <;> rw [e] <;> simp
    · simp only [hv, if_false]
      obtain ⟨i1, i2, i3⟩ := migrateLoop_writes db content
        (sortFiles (loadMigrationFiles entries)) (h ++ (getDatabaseSQLVersion db h).2)
        (getDatabaseSQLVersion db h).1
      refine ⟨i2, fun w hw => (i3 w hw).1, ?_, i1⟩
      rw [configWrites_append]
      rcases getDatabaseSQLVersion_writes db h with e | ⟨e0, e⟩
      · rw [e, List.nil_append]; exact i2
      · rw [e, List.singleton_append, List.pairwise_cons]
        refine ⟨fun w hw => ?_, i2⟩
        have := (i3 w hw).1
        omega
  exact ⟨hold.1, hold.2.1, hold.2.2.1, hx, hold.2.2.2, hu⟩

/-- For every file of a run: the file is attempted exactly when its character at index 1
is a digit above the current version, and the version after it and the write of the SQL
version made for it are that digit or none. -/
theorem migrateFile_takes_digit (db : Database) (content : Str → Str) (h : List Event)
    (entries : List Str) (r : FileRun)
    (hr : r ∈ (applySQLMigrations db content h entries).files) :
    ∃ a c rest, r.file = a :: c :: rest ∧
      (r.events ≠ [] ↔ (isDigit c = true ∧ r.before < (c.toNat : Int) - 48)) ∧
      ((r.after = r.before ∧ configWrites dbSqlVersionKey r.events = []) ∨
        (isDigit c = true ∧ r.before < (c.toNat : Int) - 48 ∧
          r.after = (c.toNat : Int) - 48 ∧
          configWrites dbSqlVersionKey r.events = [(c.toNat : Int) - 48])) := by
  obtain ⟨h', _, hmem, e⟩ := applySQLMigrations_files_mem db content h entries r hr
  obtain ⟨a, c, rest, hname⟩ := loadMigrationFiles_shape entries r.file hmem
  have hfv : fileVersion r.file = if isDigit c then some ((c.toNat : Int) - 48) else none := by
    rw [hname]; exact fileVersion_index_one a c rest
  have e1 : (migrateFile db content h' r.before r.file).1 = r.after := by rw [e]
  have e2 : (migrateFile db content h' r.before r.file).2 = r.events := by rw [e]
  have hdig : ∀ m, fileVersion r.file = some m →
      isDigit c = true ∧ m = (c.toNat : Int) - 48 := by
    intro m hm
    rw [hfv] at hm
    by_cases hc : isDigit c = true
    · simp only [hc, if_true, Option.some.injEq] at hm
      exact ⟨hc, hm.symm⟩
    · simp [hc] at hm
  refine ⟨a, c, rest, hname, ?_, ?_⟩
  · rcases migrateFile_cases db content h' r.before r.file with
      ⟨hle, e3⟩ | ⟨m, hm, hv, e3⟩ | ⟨m, es, q, b, hm, hv, _, e3⟩ |
      ⟨m, es, f, g, w, hm, hv, _, _, e3⟩ | ⟨m, es, f, g, w, b, hm, hv, _, _, e3⟩
    · rw [e] at e3
      have ee := (Prod.mk.inj e3).2
      constructor
      · intro hne; exact absurd ee hne
      · rintro ⟨hc, hlt⟩
        have := hle ((c.toNat : Int) - 48) (by rw [hfv]; simp [hc])
        omega
    all_goals
      rw [e] at e3
      have ee := (Prod.mk.inj e3).2
      obtain ⟨hc, hmc⟩ := hdig m hm
      constructor
      · intro _; exact ⟨hc, by omega⟩
      · intro _; rw [ee]; simp
  · rcases migrateFile_writes db content h' r.before r.file with ⟨w1, w2⟩ | ⟨w1, w2, w3⟩
    · left
      rw [e1] at w1
      rw [e2] at w2
      exact ⟨w1, w2⟩
    · right
      rw [e1] at w1 w2 w3
      rw [e2] at w3
      obtain ⟨hc, hmc⟩ := hdig r.after w2
      refine ⟨hc, by omega, hmc, ?_⟩
      rw [w3, hmc]

/-- C10: the version of a file is a single digit between 0 and 9 (the token read is the one
character at index 1, which `atoi` reads as 0 to 9 whatever follows it in the name); for a
file of the directory listing it is the character at index 1 read as a decimal digit, and
there is none when that character is not a digit, in which case the file is skipped; in a
run, calls are made for a file exactly when its character at index 1 is a digit above the
current version, and the version after the file and the value written to `db_sql_version`
for it are that digit, or the version is unchanged and nothing is written; once the
version read is at least 9 no call is made for any file and the version is returned as
read; the value returned never exceeds the larger of the version read and 9. -/
theorem fileVersion_single_digit (db : Database) (content : Str → Str) (h : List Event)
    (entries : List Str) :
    (∀ name m, fileVersion name = some m → 0 ≤ m ∧ m ≤ 9) ∧
      (∀ name, 0 ≤ atoi (substr name 1 1) ∧ atoi (substr name 1 1) ≤ 9) ∧
      (∀ name ∈ loadMigrationFiles entries, ∃ a c rest, name = a :: c :: rest ∧
        fileVersion name = if isDigit c then some ((c.toNat : Int) - 48) else none) ∧
      (∀ r ∈ (applySQLMigrations db content h entries).files,
        fileVersion r.file = none → r.events = [] ∧ r.after = r.before) ∧
      (∀ r ∈ (applySQLMigrations db content h entries).files,
        ∃ a c rest, r.file = a :: c :: rest ∧
          (r.events ≠ [] ↔ (isDigit c = true ∧ r.before < (c.toNat : Int) - 48)) ∧
          ((r.after = r.before ∧ configWrites dbSqlVersionKey r.events = []) ∨
            (isDigit c = true ∧ r.before < (c.toNat : Int) - 48 ∧
              r.after = (c.toNat : Int) - 48 ∧
              configWrites dbSqlVersionKey r.events = [(c.toNat : Int) - 48]))) ∧
      (9 ≤ (applySQLMigrations db content h entries).start →
        (∀ r ∈ (applySQLMigrations db content h entries).files,
          r.events = [] ∧ r.after = r.before) ∧
        (applySQLMigrations db content h entries).result =
          (applySQLMigrations db content h entries).start) ∧
      (applySQLMigrations db content h entries).result ≤
        max (applySQLMigrations db content h entries).start 9 := by
  refine ⟨fileVersion_range, atoi_substr_range, ?_, ?_,
    migrateFile_takes_digit db content h entries, ?_, ?_⟩
  · intro name hn
    obtain ⟨a, c, rest, rfl⟩ := loadMigrationFiles_shape entries name hn
    exact ⟨a, c, rest, rfl, fileVersion_index_one a c rest⟩
  · intro r hr hnone
    obtain ⟨h', _, _, hm⟩ := applySQLMigrations_files_mem db content h entries r hr
    rcases migrateFile_cases db content h' r.before r.file with
      ⟨_, e⟩ | ⟨m, hfv, _⟩ | ⟨m, es, q, b, hfv, _⟩ | ⟨m, es, f, g, w, hfv, _⟩ |
      ⟨m, es, f, g, w, b, hfv, _⟩
    · rw [hm] at e
      exact ⟨(Prod.mk.inj e).2, (Prod.mk.inj e).1⟩
    all_goals
      rw [hnone] at hfv
      cases hfv
  · unfold applySQLMigrations
    by_cases hv : (getDatabaseSQLVersion db h).1 < 0
    · simp only [hv, if_true]
      intro h9; omega
    · simp only [hv, if_false]
      intro h9
      have hidle := migrateLoop_idle db content (sortFiles (loadMigrationFiles entries))
        (getDatabaseSQLVersion db h).1
        (fun f _ m hm => le_trans (fileVersion_range f m hm).2 h9)
        (h ++ (getDatabaseSQLVersion db h).2)
      rw [hidle]
      refine ⟨?_, rfl⟩
      intro r hr
      simp only [List.mem_map] at hr
      obtain ⟨f, _, rfl⟩ := hr
      exact ⟨rfl, rfl⟩
  · unfold applySQLMigrations
    by_cases hv : (getDatabaseSQLVersion db h).1 < 0
    · simp only [hv, if_true]; omega
    · simp only [hv, if_false]
      exact migrateLoop_le_nine db content _ _ _

/-! ## Commits -/

/-- What a file leaves behind: it is skipped without a call; or it fails without any
commit call and the version stays; or it passes, the version becomes the version of the
file, and the commit succeeds; or it passes and the commit fails. -/
theorem migrateFile_outcome (db : Database) (content : Str → Str) (h : List Event) (v : Int)
    (f : Str) :
    ((∀ m, fileVersion f = some m → m ≤ v) ∧ (migrateFile db content h v f).1 = v ∧
      (migrateFile db content h v f).2 = []) ∨
    ((migrateFile db content h v f).1 = v ∧ (migrateFile db content h v f).2 ≠ [] ∧
      (⟨.commit, true⟩ : Event) ∉ (migrateFile db content h v f).2 ∧
      (⟨.commit, false⟩ : Event) ∉ (migrateFile db content h v f).2) ∨
    (fileVersion f = some (migrateFile db content h v f).1 ∧ v < (migrateFile db content h v f).1 ∧
      (⟨.commit, true⟩ : Event) ∈ (migrateFile db content h v f).2 ∧
      (⟨.commit, false⟩ : Event) ∉ (migrateFile db content h v f).2) ∨
    (fileVersion f = some (migrateFile db content h v f).1 ∧ v < (migrateFile db content h v f).1 ∧
      (⟨.commit, false⟩ : Event) ∈ (migrateFile db content h v f).2 ∧
      (⟨.commit, true⟩ : Event) ∉ (migrateFile db content h v f).2) := by
  have hno : ∀ (es : List Event) (b : Bool), okStatements es → (⟨.commit, b⟩ : Event) ∉ es :=
    fun es b hs => okStatements_not_mem es hs _ (by intro q; simp)
  rcases migrateFile_cases db content h v f with
    ⟨hle, e⟩ | ⟨m, _, _, e⟩ | ⟨m, es, q, b, _, _, hs, e⟩ | ⟨m, es, f', g, w, hm, hv, hs, hw, e⟩ |
    ⟨m, es, f', g, w, b, hm, hv, hs, hw, e⟩
  · left; rw [e]; exact ⟨hle, rfl, rfl⟩
  · right; left; rw [e]
    refine ⟨rfl, by simp, by simp, by simp⟩
  · right; left; rw [e]
    refine ⟨rfl, by simp, ?_, ?_⟩ <;>
    · simp only [List.cons_append, List.mem_cons, List.mem_append, Event.mk.injEq,
        reduceCtorEq, false_and, List.mem_nil_iff, or_false, false_or]
      exact hno es _ hs
  · right; right; left; rw [e]
    refine ⟨hm, hv, by simp, ?_⟩
    simp only [List.cons_append, List.mem_cons, List.mem_append, Event.mk.injEq,
      reduceCtorEq, false_and, List.mem_nil_iff, or_false, false_or, Bool.true_eq_false,
      and_false]
    exact hno es _ hs
  · right; right; right; rw [e]
    refine ⟨hm, hv, by simp, ?_⟩
    simp only [List.cons_append, List.mem_cons, List.mem_append, Event.mk.injEq,
      reduceCtorEq, false_and, List.mem_nil_iff, or_false, false_or, Bool.false_eq_true,
      and_false]
    exact hno es _ hs

/-- When no commit fails the loop ends with the version of the last committed file. -/
theorem migrateLoop_lastCommitted (db : Database) (content : Str → Str) (fs : List Str) :
    ∀ (h : List Event) (v : Int),
      (∀ r ∈ (migrateLoop db content h v fs).2, (⟨.commit, false⟩ : Event) ∉ r.events) →
      (migrateLoop db content h v fs).1 = lastCommitted v (migrateLoop db content h v fs).2 := by
  induction fs with
  | nil => intro h v _; rfl
  | cons f fs ih =>
    intro h v hno
    simp only [migrateLoop] at hno ⊢
    have ih' := ih (h ++ (migrateFile db content h v f).2) (migrateFile db content h v f).1
      (fun r hr => hno r (List.mem_cons_of_mem _ hr))
    have h0 := hno _ (List.mem_cons_self _ _)
    simp only [lastCommitted, committed]
    rcases migrateFile_outcome db content h v f with
      ⟨_, e1, e2⟩ | ⟨e1, _, e2, _⟩ | ⟨e1, _, e2, _⟩ | ⟨_, _, e2, _⟩
    · rw [if_neg (by rw [e2]; simp), ih', e1]
    · rw [if_neg e2, ih', e1]
    · rw [if_pos e2, ih', e1]; rfl
    · exact absurd e2 h0

/-- When no commit fails, the value `applySQLMigrations` returns after reading a version
that is not negative is the version of the last committed file, or the version read. -/
theorem applySQLMigrations_result_of_commits (db : Database) (content : Str → Str)
    (h : List Event) (entries : List Str)
    (hstart : 0 ≤ (applySQLMigrations db content h entries).start)
    (hno : ∀ r ∈ (applySQLMigrations db content h entries).files,
      (⟨.commit, false⟩ : Event) ∉ r.events) :
    (applySQLMigrations db content h entries).result =
      lastCommitted (applySQLMigrations db content h entries).start
        (applySQLMigrations db content h entries).files := by
  unfold applySQLMigrations at hstart hno ⊢
  by_cases hv : (getDatabaseSQLVersion db h).1 < 0
  · simp only [hv, if_true] at hstart
    omega
  · simp only [hv, if_false] at hno ⊢
    exact migrateLoop_lastCommitted db content _ _ _ hno

/-- C8: with one file whose statements succeed on a database whose commit fails, the run
reads version 0 and returns 1, although no file is committed, the transaction is rolled
back and the stored `db_sql_version` is still 0. -/
theorem applySQLMigrations_returns_uncommitted_version :
    (applySQLMigrations commitFailsDb oneStatement [] ["v1.sql".toList]).start = 0 ∧
      (applySQLMigrations commitFailsDb oneStatement [] ["v1.sql".toList]).result = 1 ∧
      (∀ r ∈ (applySQLMigrations commitFailsDb oneStatement [] ["v1.sql".toList]).files,
        ¬ committed r) ∧
      lastCommitted 0
        (applySQLMigrations commitFailsDb oneStatement [] ["v1.sql".toList]).files = 0 ∧
      (⟨.rollback, true⟩ : Event) ∈
        (applySQLMigrations commitFailsDb oneStatement [] ["v1.sql".toList]).log ∧
      storedValue 0 (applySQLMigrations commitFailsDb oneStatement [] ["v1.sql".toList]).log
        dbSqlVersionKey = 0 := by
  decide

/-! ## Claims about the scripted runner -/

/-- With the version unknown and no unit named for -1, `updateDatabase` stops in its first
iteration and writes nothing. -/
theorem updateDatabase_unknown_version_halts (db : Database) (lua : LuaHost) (fuel : Nat)
    (h : List Event) (hv : (getDatabaseVersion db h).1 = -1) (hu : lua.dofile (-1) = false) :
    (updateDatabase db lua (fuel + 1) h).stopped = true ∧
      configWrites dbVersionKey (updateDatabase db lua (fuel + 1) h).events = [] := by
  unfold updateDatabase
  by_cases hs : lua.newstate = true
  · simp only [hs, Bool.not_true, Bool.false_eq_true, if_false, hv, updateLoop, hu,
      Bool.not_false, if_true, List.append_nil, true_and]
    exact (getDatabaseVersion_writes db h).1
  · simp [hs, configWrites]

/-- C7: with the bookkeeping table present, no `db_version` row, and a unit named for -1
that returns true, `updateDatabase` reads the version -1, runs that unit and writes
`db_version` 0. -/
theorem updateDatabase_runs_unit_minus_one :
    (getDatabaseVersion noVersionRowDb []).1 = -1 ∧
      (getDatabaseVersion noVersionRowDb []).2 =
        [⟨.storeQuery (.selectTable serverConfig), true⟩,
          ⟨.storeQuery (.selectConfig dbVersionKey), false⟩] ∧
      configWrites dbVersionKey (updateDatabase noVersionRowDb (singleUnit (-1)) 2 []).events =
        [0] ∧
      (updateDatabase noVersionRowDb (singleUnit (-1)) 2 []).stopped = true ∧
      (updateDatabase noVersionRowDb (singleUnit (-1)) 2 []).version = 0 := by
  decide

/-! ## Skipped files and repeated runs -/

theorem migrateLoop_after_le (db : Database) (content : Str → Str) (fs : List Str) :
    ∀ (h : List Event) (v : Int) (r : FileRun), r ∈ (migrateLoop db content h v fs).2 →
      r.after ≤ (migrateLoop db content h v fs).1 := by
  induction fs with
  | nil => intro h v r hr; simp [migrateLoop] at hr
  | cons f fs ih =>
    intro h v r hr
    simp only [migrateLoop, List.mem_cons] at hr ⊢
    rcases hr with rfl | hr
    · exact (migrateLoop_writes db content fs _ _).1
    · exact ih _ _ r hr

/-- The version of a committed file is at most the value the run returns. -/
theorem committed_version_le_result (db : Database) (content : Str → Str) (h : List Event)
    (entries : List Str) (r : FileRun)
    (hr : r ∈ (applySQLMigrations db content h entries).files) (hc : committed r) (m : Int)
    (hm : fileVersion r.file = some m) :
    m ≤ (applySQLMigrations db content h entries).result := by
  obtain ⟨h', _, _, e⟩ := applySQLMigrations_files_mem db content h entries r hr
  have hafter : r.after ≤ (applySQLMigrations db content h entries).result := by
    unfold applySQLMigrations at hr ⊢
    by_cases hv : (getDatabaseSQLVersion db h).1 < 0
    · simp [hv] at hr
    · simp only [hv, if_false] at hr ⊢
      exact migrateLoop_after_le db content _ _ _ r hr
  have e1 : (migrateFile db content h' r.before r.file).1 = r.after := by rw [e]
  have e2 : (migrateFile db content h' r.before r.file).2 = r.events := by rw [e]
  unfold committed at hc
  rcases migrateFile_outcome db content h' r.before r.file with
    ⟨_, _, e3⟩ | ⟨_, _, e3, _⟩ | ⟨e3, _⟩ | ⟨_, _, _, e3⟩
  · rw [e2] at e3; rw [e3] at hc; simp at hc
  · rw [e2] at e3; exact absurd hc e3
  · rw [e1, hm] at e3
    have := Option.some.inj e3
    omega
  · rw [e2] at e3; exact absurd hc e3

theorem applySQLMigrations_result_nonneg (db : Database) (content : Str → Str)
    (h : List Event) (entries : List Str) :
    0 ≤ (applySQLMigrations db content h entries).result := by
  unfold applySQLMigrations
  by_cases hv : (getDatabaseSQLVersion db h).1 < 0
  · simp [hv]
  · simp only [hv, if_false]
    have := (migrateLoop_writes db content (sortFiles (loadMigrationFiles entries))
      (h ++ (getDatabaseSQLVersion db h).2) (getDatabaseSQLVersion db h).1).1
    omega

/-- C3, as stated, fails: `a3.sql` needs the table that `b2.sql` creates. The first run
rolls `a3.sql` back, commits `b2.sql` and returns 2; the second run over the same files
commits `a3.sql`, returns 3 and changes the stored `db_sql_version` from 2 to 3. -/
theorem applySQLMigrations_second_run_counterexample :
    (applySQLMigrations dependentDb dependentContent [] dependentEntries).result = 2 ∧
      storedValue 0 (applySQLMigrations dependentDb dependentContent [] dependentEntries).log
        dbSqlVersionKey = 2 ∧
      (applySQLMigrations dependentDb dependentContent
        (applySQLMigrations dependentDb dependentContent [] dependentEntries).log
        dependentEntries).result = 3 ∧
      (applySQLMigrations dependentDb dependentContent
        (applySQLMigrations dependentDb dependentContent [] dependentEntries).log
        dependentEntries).result ≠
        (applySQLMigrations dependentDb dependentContent [] dependentEntries).result ∧
      (∃ r ∈ (applySQLMigrations dependentDb dependentContent
          (applySQLMigrations dependentDb dependentContent [] dependentEntries).log
          dependentEntries).files, committed r) ∧
      storedValue 0
        ((applySQLMigrations dependentDb dependentContent [] dependentEntries).log ++
          (applySQLMigrations dependentDb dependentContent
            (applySQLMigrations dependentDb dependentContent [] dependentEntries).log
            dependentEntries).log)
        dbSqlVersionKey = 3 := by
  decide

/-- Reading the SQL version when the bookkeeping table exists only queries. -/
theorem getDatabaseSQLVersion_reads_only (db : Database) (h : List Event)
    (ht : (tableExists db h serverConfig).1 = true) :
    ∀ e ∈ (getDatabaseSQLVersion db h).2, ∃ q, e.call = .storeQuery q := by
  unfold getDatabaseSQLVersion
  simp only [ht, Bool.not_true, Bool.false_eq_true, if_false]
  intro e he
  unfold tableExists getDatabaseConfig at he
  split at he <;>
  · simp only [List.singleton_append, List.mem_cons, List.mem_singleton, List.mem_nil_iff,
      or_false] at he
    rcases he with rfl | rfl <;> exact ⟨_, rfl⟩

/-- C3, amended: when no file that the first run left uncommitted has a version above the
version the first run returned, and the second run over the same files reads the version
the first run returned, the second run returns that same version and makes no call for any
file: it opens no transaction, executes no statement, writes no version, commits nothing;
and when the bookkeeping table exists at the second run, every call of the second run is a
query. -/
theorem applySQLMigrations_idempotent_unless_left_behind (db : Database)
    (content : Str → Str) (h : List Event) (entries : List Str)
    (hleft : ∀ f ∈ loadMigrationFiles entries,
      (∀ r ∈ (applySQLMigrations db content h entries).files, r.file = f → ¬ committed r) →
      ∀ m, fileVersion f = some m → m ≤ (applySQLMigrations db content h entries).result)
    (hread : (getDatabaseSQLVersion db
        (h ++ (applySQLMigrations db content h entries).log)).1 =
      (applySQLMigrations db content h entries).result) :
    (applySQLMigrations db content (h ++ (applySQLMigrations db content h entries).log)
        entries).result = (applySQLMigrations db content h entries).result ∧
      (∀ r ∈ (applySQLMigrations db content
          (h ++ (applySQLMigrations db content h entries).log) entries).files,
        r.events = [] ∧ r.after = r.before) ∧
      ((tableExists db (h ++ (applySQLMigrations db content h entries).log)
          serverConfig).1 = true →
        ∀ e ∈ (applySQLMigrations db content
            (h ++ (applySQLMigrations db content h entries).log) entries).log,
          ∃ q, e.call = .storeQuery q) := by
  have hge := applySQLMigrations_result_nonneg db content h entries
  have hfiles : ∀ f ∈ sortFiles (loadMigrationFiles entries), ∀ m, fileVersion f = some m →
      m ≤ (applySQLMigrations db content h entries).result := by
    intro f hf m hm
    have hf2 : f ∈ loadMigrationFiles entries := (sortFiles_perm _).mem_iff.mp hf
    by_cases hex : ∃ r ∈ (applySQLMigrations db content h entries).files,
        r.file = f ∧ committed r
    · obtain ⟨r, hr, hrf, hc⟩ := hex
      exact committed_version_le_result db content h entries r hr hc m (by rw [hrf]; exact hm)
    · exact hleft f hf2 (fun r hr hrf hc => hex ⟨r, hr, hrf, hc⟩) m hm
  generalize (applySQLMigrations db content h entries).log = log1 at hread ⊢
  generalize (applySQLMigrations db content h entries).result = v1 at hread hge hfiles ⊢
  have hv2 : 0 ≤ (getDatabaseSQLVersion db (h ++ log1)).1 := by omega
  rw [applySQLMigrations_of_nonneg db content (h ++ log1) entries hv2]
  simp only [hread]
  rw [migrateLoop_idle db content _ v1 hfiles]
  have hnone : ∀ r ∈ (sortFiles (loadMigrationFiles entries)).map
      (fun f => (⟨f, v1, v1, []⟩ : FileRun)), r.events = [] ∧ r.after = r.before := by
    intro r hr
    simp only [List.mem_map] at hr
    obtain ⟨f, _, rfl⟩ := hr
    exact ⟨rfl, rfl⟩
  refine ⟨rfl, hnone, ?_⟩
  intro ht e he
  have hfe : fileEvents ((sortFiles (loadMigrationFiles entries)).map
      (fun f => (⟨f, v1, v1, []⟩ : FileRun))) = [] := by
    simp only [fileEvents, List.flatten_eq_nil_iff]
    intro l hl
    obtain ⟨r, hr, rfl⟩ := List.mem_map.mp hl
    exact (hnone r hr).1
  simp only [Run.log, hfe, List.append_nil] at he
  exact getDatabaseSQLVersion_reads_only db (h ++ log1) ht e he

theorem applySQLMigrations_idempotent_unless_left_behind_witness :
    ((∀ f ∈ loadMigrationFiles ["v1.sql".toList, "v2.sql".toList],
        (∀ r ∈ (applySQLMigrations secondFailsDb firstFileFails []
            ["v1.sql".toList, "v2.sql".toList]).files, r.file = f → ¬ committed r) →
        ∀ m ∈ fileVersion f, m ≤ (applySQLMigrations secondFailsDb firstFileFails []
          ["v1.sql".toList, "v2.sql".toList]).result) ∧
      (getDatabaseSQLVersion secondFailsDb
          ([] ++ (applySQLMigrations secondFailsDb firstFileFails []
            ["v1.sql".toList, "v2.sql".toList]).log)).1 =
        (applySQLMigrations secondFailsDb firstFileFails []
          ["v1.sql".toList, "v2.sql".toList]).result ∧
      (applySQLMigrations secondFailsDb firstFileFails []
          ["v1.sql".toList, "v2.sql".toList]).files = [firstFileFailsRun, firstFileFailsNext] ∧
      (applySQLMigrations secondFailsDb firstFileFails []
          ["v1.sql".toList, "v2.sql".toList]).result = 2) ∧
    ((applySQLMigrations secondFailsDb firstFileFails
          ([] ++ (applySQLMigrations secondFailsDb firstFileFails []
            ["v1.sql".toList, "v2.sql".toList]).log)
          ["v1.sql".toList, "v2.sql".toList]).result =
        (applySQLMigrations secondFailsDb firstFileFails []
          ["v1.sql".toList, "v2.sql".toList]).result ∧
      (∀ r ∈ (applySQLMigrations secondFailsDb firstFileFails
          ([] ++ (applySQLMigrations secondFailsDb firstFileFails []
            ["v1.sql".toList, "v2.sql".toList]).log)
          ["v1.sql".toList, "v2.sql".toList]).files,
        r.events = [] ∧ r.after = r.before) ∧
      ((tableExists secondFailsDb
          ([] ++ (applySQLMigrations secondFailsDb firstFileFails []
            ["v1.sql".toList, "v2.sql".toList]).log) serverConfig).1 = true →
        ∀ e ∈ (applySQLMigrations secondFailsDb firstFileFails
            ([] ++ (applySQLMigrations secondFailsDb firstFileFails []
              ["v1.sql".toList, "v2.sql".toList]).log)
            ["v1.sql".toList, "v2.sql".toList]).log,
          ∃ q, e.call = .storeQuery q)) :=
  ⟨⟨by decide, by decide, by decide, by decide⟩,
    applySQLMigrations_idempotent_unless_left_behind secondFailsDb firstFileFails []
      ["v1.sql".toList, "v2.sql".toList]
      (fun f hf hno m hm =>
        (by decide : ∀ f ∈ loadMigrationFiles ["v1.sql".toList, "v2.sql".toList],
          (∀ r ∈ (applySQLMigrations secondFailsDb firstFileFails []
              ["v1.sql".toList, "v2.sql".toList]).files, r.file = f → ¬ committed r) →
          ∀ m ∈ fileVersion f, m ≤ (applySQLMigrations secondFailsDb firstFileFails []
            ["v1.sql".toList, "v2.sql".toList]).result) f hf hno m hm)
      (by decide)⟩

/-! ## Scripted sequencing -/

theorem updateLoop_stop (db : Database) (lua : LuaHost) (fuel : Nat) (h : List Event) (v : Int)
    (hbad : lua.dofile v = false ∨ lua.reserveScriptEnv v = false ∨ lua.pcall v = false ∨
      lua.getBoolean v = false) :
    updateLoop db lua (fuel + 1) h v = ⟨true, v, []⟩ := by
  unfold updateLoop
  cases h1 : lua.dofile v <;> cases h2 : lua.reserveScriptEnv v <;> cases h3 : lua.pcall v <;>
    cases h4 : lua.getBoolean v <;> simp_all

theorem updateLoop_step (db : Database) (lua : LuaHost) (fuel : Nat) (h : List Event) (v : Int)
    (h1 : lua.dofile v = true) (h2 : lua.reserveScriptEnv v = true) (h3 : lua.pcall v = true)
    (h4 : lua.getBoolean v = true) :
    updateLoop db lua (fuel + 1) h v =
      ⟨(updateLoop db lua fuel (h ++ registerDatabaseConfig db h dbVersionKey (int32 (v + 1)))
          (int32 (v + 1))).stopped,
        (updateLoop db lua fuel (h ++ registerDatabaseConfig db h dbVersionKey (int32 (v + 1)))
          (int32 (v + 1))).version,
        registerDatabaseConfig db h dbVersionKey (int32 (v + 1)) ++
          (updateLoop db lua fuel (h ++ registerDatabaseConfig db h dbVersionKey (int32 (v + 1)))
            (int32 (v + 1))).events⟩ := by
  conv_lhs => unfold updateLoop
  simp only [h1, h2, h3, h4, Bool.not_true, Bool.false_eq_true, if_false]

/-- The loop of `updateDatabase` over `k` good units followed by a bad one, below the
largest `int32_t`. -/
theorem updateLoop_run (db : Database) (lua : LuaHost) (k : Nat) :
    ∀ (fuel : Nat) (h : List Event) (v : Int), k < fuel → -2147483648 ≤ v →
      v + k ≤ 2147483647 →
      (∀ i : Nat, i < k → lua.dofile (v + i) = true ∧ lua.reserveScriptEnv (v + i) = true ∧
        lua.pcall (v + i) = true ∧ lua.getBoolean (v + i) = true) →
      (lua.dofile (v + k) = false ∨ lua.reserveScriptEnv (v + k) = false ∨
        lua.pcall (v + k) = false ∨ lua.getBoolean (v + k) = false) →
      (updateLoop db lua fuel h v).stopped = true ∧
        (updateLoop db lua fuel h v).version = v + k ∧
        configWrites dbVersionKey (updateLoop db lua fuel h v).events =
          (List.range k).map fun (i : Nat) => v + 1 + (i : Int) := by
  induction k with
  | zero =>
    intro fuel h v hf _ _ _ hbad
    obtain ⟨n, rfl⟩ : ∃ n, fuel = n + 1 := ⟨fuel - 1, by omega⟩
    simp only [Nat.cast_zero, add_zero] at hbad
    rw [updateLoop_stop db lua n h v hbad]
    simp [configWrites]
  | succ k ih =>
    intro fuel h v hf hlo hhi hok hbad
    obtain ⟨n, rfl⟩ : ∃ n, fuel = n + 1 := ⟨fuel - 1, by omega⟩
    have h0 := hok 0 (by omega)
    simp only [Nat.cast_zero, add_zero] at h0
    push_cast at hhi hbad
    have e32 : int32 (v + 1) = v + 1 := int32_of_range _ (by omega) (by omega)
    rw [updateLoop_step db lua n h v h0.1 h0.2.1 h0.2.2.1 h0.2.2.2, e32]
    have hok' : ∀ i : Nat, i < k → lua.dofile (v + 1 + i) = true ∧
        lua.reserveScriptEnv (v + 1 + i) = true ∧ lua.pcall (v + 1 + i) = true ∧
        lua.getBoolean (v + 1 + i) = true := by
      intro i hi
      have := hok (i + 1) (by omega)
      push_cast at this
      have e : v + 1 + (i : Int) = v + ((i : Int) + 1) := by ring
      rw [e]; exact this
    have hbad' : lua.dofile (v + 1 + k) = false ∨ lua.reserveScriptEnv (v + 1 + k) = false ∨
        lua.pcall (v + 1 + k) = false ∨ lua.getBoolean (v + 1 + k) = false := by
      have e : v + 1 + (k : Int) = v + ((k : Int) + 1) := by ring
      rw [e]; exact hbad
    obtain ⟨i1, i2, i3⟩ := ih n (h ++ registerDatabaseConfig db h dbVersionKey (v + 1)) (v + 1)
      (by omega) (by omega) (by omega) hok' hbad'
    refine ⟨i1, ?_, ?_⟩
    · simp only [i2]; push_cast; ring
    · simp only [configWrites_append, registerDatabaseConfig_writes, i3, List.singleton_append]
      rw [List.range_succ_eq_map, List.map_cons, List.map_map]
      simp only [Nat.cast_zero, add_zero, List.cons.injEq, true_and]
      apply List.map_congr_left
      intro i _
      simp only [Function.comp, Nat.succ_eq_add_one]
      push_cast; ring

/-- C6, as stated, fails at the largest `int32_t`: starting from version 2147483647 with
that unit returning true and no unit 2147483648, `updateDatabase` does not write
2147483648 but the wrapped value -2147483648. -/
theorem updateDatabase_sequencing_counterexample :
    (getDatabaseVersion (simpleDb 2147483647 fun _ => false) []).1 = 2147483647 ∧
      ((singleUnit 2147483647).dofile 2147483647 = true ∧
        (singleUnit 2147483647).reserveScriptEnv 2147483647 = true ∧
        (singleUnit 2147483647).pcall 2147483647 = true ∧
        (singleUnit 2147483647).getBoolean 2147483647 = true) ∧
      (singleUnit 2147483647).dofile (2147483647 + 1) = false ∧
      configWrites dbVersionKey
        (updateDatabase (simpleDb 2147483647 fun _ => false) (singleUnit 2147483647) 3
          []).events = [-2147483648] ∧
      configWrites dbVersionKey
        (updateDatabase (simpleDb 2147483647 fun _ => false) (singleUnit 2147483647) 3
          []).events ≠ [2147483647 + 1] := by
  decide

/-- C6, amended: when the version read is `v0`, the units for `v0` to `v0 + k - 1` load, get
a script environment, run without error and return true, the unit for `v0 + k` is missing
or fails to load, gets no environment, faults or returns false, and `v0 + k` is at most
the largest `int32_t`, then `updateDatabase` leaves its loop after `k + 1` iterations at
version `v0 + k`, having written exactly `v0 + 1`, ..., `v0 + k` to `db_version` in that
order. -/
theorem updateDatabase_sequencing (db : Database) (lua : LuaHost) (h : List Event) (v0 : Int)
    (k fuel : Nat)
    (hstate : lua.newstate = true)
    (hv0 : (getDatabaseVersion db h).1 = v0)
    (hmax : v0 + k ≤ 2147483647)
    (hok : ∀ i : Nat, i < k → lua.dofile (v0 + i) = true ∧
      lua.reserveScriptEnv (v0 + i) = true ∧ lua.pcall (v0 + i) = true ∧
      lua.getBoolean (v0 + i) = true)
    (hbad : lua.dofile (v0 + k) = false ∨ lua.reserveScriptEnv (v0 + k) = false ∨
      lua.pcall (v0 + k) = false ∨ lua.getBoolean (v0 + k) = false)
    (hfuel : k < fuel) :
    (updateDatabase db lua fuel h).stopped = true ∧
      (updateDatabase db lua fuel h).version = v0 + k ∧
      configWrites dbVersionKey (updateDatabase db lua fuel h).events =
        (List.range k).map fun (i : Nat) => v0 + 1 + (i : Int) := by
  have hr := getDatabaseVersion_writes db h
  rw [hv0] at hr
  obtain ⟨i1, i2, i3⟩ := updateLoop_run db lua k fuel (h ++ (getDatabaseVersion db h).2) v0
    hfuel hr.2.1 hmax hok hbad
  unfold updateDatabase
  simp only [hstate, Bool.not_true, Bool.false_eq_true, if_false, hv0, configWrites_append,
    (getDatabaseVersion_writes db h).1, List.nil_append]
  exact ⟨i1, i2, i3⟩

theorem updateDatabase_sequencing_witness :
    (twoUnits.newstate = true ∧ (getDatabaseVersion healthyDb []).1 = 0 ∧
      (0 : Int) + (1 : Nat) ≤ 2147483647 ∧
      (∀ i : Nat, i < 1 → twoUnits.dofile (0 + i) = true ∧
        twoUnits.reserveScriptEnv (0 + i) = true ∧ twoUnits.pcall (0 + i) = true ∧
        twoUnits.getBoolean (0 + i) = true) ∧
      (twoUnits.dofile (0 + (1 : Nat)) = false ∨ twoUnits.reserveScriptEnv (0 + (1 : Nat)) = false ∨
        twoUnits.pcall (0 + (1 : Nat)) = false ∨ twoUnits.getBoolean (0 + (1 : Nat)) = false) ∧
      1 < 2) ∧
    ((updateDatabase healthyDb twoUnits 2 []).stopped = true ∧
      (updateDatabase healthyDb twoUnits 2 []).version = 0 + (1 : Nat) ∧
      configWrites dbVersionKey (updateDatabase healthyDb twoUnits 2 []).events =
        (List.range 1).map fun (i : Nat) => (0 : Int) + 1 + (i : Int)) :=
  ⟨⟨rfl, by decide, by decide, by intro i hi; interval_cases i; decide, by decide, by decide⟩,
    updateDatabase_sequencing healthyDb twoUnits [] 0 1 2 rfl (by decide) (by decide)
      (by intro i hi; interval_cases i; decide) (by decide) (by decide)⟩

end DatabaseManager
